import Mathlib

/-!
Verification development for the retrieval subsystem of a codebase
question-answering assistant (files `rag.py` and `tools.py`).

The Python source is shallowly embedded as follows.

* Python floats that are only stored and compared (modification times,
  persisted embedding vectors) are modelled as rationals; the real-valued
  cosine-similarity computation, which involves a square root, is modelled
  over the reals.
* The filesystem seen by `os.walk` is a list of `SrcFile` records in walk
  order; `os.path.getmtime`, `open(...).readlines()` and `os.path.relpath`
  become fields of that record.
* The embedding provider is an oracle parameter: a function from a batch of
  texts to the returned vectors.  Where transport failures matter the oracle
  returns `Except String`, mirroring the `RuntimeError` raised by
  `OllamaEmbeddingProvider.embed`.
* `random.sample` in the staleness checker is an oracle parameter supplying
  the chosen sample.
* The JSON store is modelled as `Option (List Chunk)`: `none` when no index
  file exists, `some cs` after `save(cs)`.
-/

/-! ### Python string primitives -/

/-- Python `"".join(parts)`: concatenation of a list of strings. -/
def pyJoin : List String → String
  | [] => ""
  | s :: rest => s ++ pyJoin rest

/-- Python `not text.strip()`: the string is empty or whitespace only. -/
def isBlank (s : String) : Bool :=
  s.data.all Char.isWhitespace

/-- Python `sub in s`: substring containment test. -/
def strContains (s sub : String) : Bool :=
  (List.range (s.data.length + 1)).any fun i => sub.data.isPrefixOf (s.data.drop i)

/-- Python `os.path.join(a, b)` for a relative second component. -/
def pathJoin (a b : String) : String :=
  a ++ "/" ++ b

/-- Suffix test on the underlying character lists (Python `s.endswith(x)`). -/
def strEndsWith (s suffix : String) : Bool :=
  suffix.data.isSuffixOf s.data

/-- Prefix test on the underlying character lists (Python `s.startswith(x)`). -/
def strStartsWith (s p : String) : Bool :=
  p.data.isPrefixOf s.data

/-- Python `s.strip()`: drop leading and trailing whitespace. -/
def pyStrip (s : String) : String :=
  String.mk (((s.data.dropWhile Char.isWhitespace).reverse.dropWhile
    Char.isWhitespace).reverse)

/-- Python `os.path.isabs(p)` on POSIX. -/
def isAbsPath (p : String) : Bool :=
  strStartsWith p "/"

/-! ### Data model: `Chunk` (rag.py, `@dataclass class Chunk`) -/

/-- One indexed chunk record, as persisted by `SimpleVectorStore.save`.
Line numbers are 1-indexed and inclusive. -/
structure Chunk where
  id : String
  path : String
  start_line : ℕ
  end_line : ℕ
  text : String
  embedding : List ℚ
  score : ℚ := 0
  modified_time : ℚ := 0
  deriving DecidableEq, Repr

/-- The persisted state of `SimpleVectorStore`: `none` when no index file
exists at the store path. -/
def StoreState : Type := Option (List Chunk)

/-- Model of `SimpleVectorStore.load` (rag.py lines 125-130). -/
def storeLoad : StoreState → List Chunk
  | none => []
  | some cs => cs

/-- Model of `SimpleVectorStore.save` (rag.py lines 132-147): a full
overwrite with the given chunk sequence. -/
def storeSave (cs : List Chunk) : StoreState :=
  some cs

/-- Model of `get_rag_index_path` (rag.py lines 111-113). -/
def get_rag_index_path (workspace_root : String) : String :=
  pathJoin workspace_root ".ask_rag_index.json"

/-- The store path constructed inside `_run_rag` (tools.py line 213):
`os.path.join(workspace_root, ".agent_engine", "rag_index.json")`. -/
def runRagStorePath (workspace_root : String) : String :=
  pathJoin (pathJoin workspace_root ".agent_engine") "rag_index.json"

/-! ### The workspace as seen by `os.walk` -/

/-- One file met during `os.walk(workspace_root)`, in walk order.  `dir` is
the `root` variable of the walk, `fname` the file name, `rel` the
`os.path.relpath` result, `mtime` the current `os.path.getmtime`, and
`lines` the result of `readlines()` (each line keeps its newline). -/
structure SrcFile where
  dir : String
  fname : String
  rel : String
  mtime : ℚ
  lines : List String
  deriving DecidableEq, Repr

/-- Default `include_ext` of `Retriever.__init__` (rag.py line 165). -/
def defaultIncludeExt : List String :=
  [".py", ".md", ".txt", ".json", ".yaml", ".yml"]

/-- Directory exclusion used by both builds (rag.py lines 171 and 219):
substring match on the walk directory. -/
def excludedDir (dir : String) : Bool :=
  strContains dir ".git" || strContains dir "venv" || strContains dir "__pycache__"

/-- File eligibility: directory not excluded and the file name ends with one
of the configured extensions (rag.py lines 171-175). -/
def eligibleFile (exts : List String) (f : SrcFile) : Bool :=
  !excludedDir f.dir && exts.any fun ext => strEndsWith f.fname ext

/-- The files any build visits, in walk order. -/
def walkFiles (exts : List String) (ws : List SrcFile) : List SrcFile :=
  ws.filter (eligibleFile exts)

/-! ### Chunking (rag.py lines 181-196 and 242-258; both builds use the
same windowing code) -/

/-- Number of iterations of `range(0, n, L)` for `L > 0`. -/
def numWindows (L n : ℕ) : ℕ :=
  (n + L - 1) / L

/-- The chunk id string `f"{rel}:{i+1}-{min(i+L, n)}"`. -/
def chunkId (rel : String) (s e : ℕ) : String :=
  rel ++ ":" ++ Nat.repr s ++ "-" ++ Nat.repr e

/-- Chunks produced from one file: consecutive `L`-line windows, skipping
windows whose text is empty or whitespace only, each tagged with the file
modification time and an empty embedding. -/
def fileChunks (L : ℕ) (rel : String) (mtime : ℚ) (lines : List String) : List Chunk :=
  (List.range (numWindows L lines.length)).filterMap fun j =>
    let i := j * L
    let text := pyJoin ((lines.drop i).take L)
    if isBlank text then none
    else some
      { id := chunkId rel (i + 1) (min (i + L) lines.length)
        path := rel
        start_line := i + 1
        end_line := min (i + L) lines.length
        text := text
        embedding := []
        modified_time := mtime }

/-! ### Embedding assignment -/

/-- Overwrite the embedding field, as the positional
`for chunk, vec in zip(chunks, embeddings): chunk.embedding = vec` does. -/
def setEmbedding (c : Chunk) (v : List ℚ) : Chunk :=
  { c with embedding := v }

/-- Positional zip of vectors onto chunks: chunks beyond the vector list
keep their empty embedding, extra vectors are dropped. -/
def zipAssign (cs : List Chunk) (vs : List (List ℚ)) : List Chunk :=
  List.zipWith setEmbedding cs vs ++ cs.drop vs.length

/-! ### Full build (`Retriever.build_index`, rag.py lines 168-203) -/

/-- All chunks of a full build, before embedding. -/
def buildIndexChunks (L : ℕ) (exts : List String) (ws : List SrcFile) : List Chunk :=
  (walkFiles exts ws).flatMap fun f => fileChunks L f.rel f.mtime f.lines

/-- `build_index` with a total embedding oracle `e`: chunk every eligible
file, embed all chunk texts in one batched call, zip the vectors back on
positionally.  The returned list is also what `store.save` persists. -/
def buildIndex (L : ℕ) (exts : List String) (e : List String → List (List ℚ))
    (ws : List SrcFile) : List Chunk :=
  let cs := buildIndexChunks L exts ws
  zipAssign cs (e (cs.map fun c => c.text))

/-! ### Incremental build (`Retriever.build_index_incremental`,
rag.py lines 205-267) -/

/-- `indexed_mtimes[rel]`: the modification time of the first chunk of the
loaded store whose path is `rel` (the dict keeps the first occurrence). -/
def lookupMtime (store : List Chunk) (rel : String) : Option ℚ :=
  (store.find? fun c => decide (c.path = rel)).map fun c => c.modified_time

/-- Per-file decision of the incremental build: an unchanged file
(`current_mtime <= old_mtime`) carries forward all its existing chunks
(`False` tag), a new or modified file is re-chunked (`True` tag, meaning
its chunks join `new_or_modified`). -/
def incrementalEntry (L : ℕ) (store : List Chunk) (f : SrcFile) : Bool × List Chunk :=
  match lookupMtime store f.rel with
  | some old =>
    if f.mtime ≤ old then (false, store.filter fun c => decide (c.path = f.rel))
    else (true, fileChunks L f.rel f.mtime f.lines)
  | none => (true, fileChunks L f.rel f.mtime f.lines)

/-- The per-file entries of one incremental run, in walk order. -/
def incrementalEntries (L : ℕ) (exts : List String) (store : List Chunk)
    (ws : List SrcFile) : List (Bool × List Chunk) :=
  (walkFiles exts ws).map (incrementalEntry L store)

/-- The `new_or_modified` list: all chunks of re-chunked files, in walk
order.  Exactly these chunk texts are passed to the embedder. -/
def incrementalDelta (L : ℕ) (exts : List String) (store : List Chunk)
    (ws : List SrcFile) : List Chunk :=
  (incrementalEntries L exts store ws).flatMap fun en => if en.1 then en.2 else []

/-- The texts of the single batched embedding call of the incremental build
(`self.embedder.embed([c.text for c in new_or_modified])`); the call is
skipped when the list is empty. -/
def incrementalEmbedTexts (L : ℕ) (exts : List String) (store : List Chunk)
    (ws : List SrcFile) : List String :=
  (incrementalDelta L exts store ws).map fun c => c.text

/-- Distribute the returned vectors positionally over the re-chunked
(`True`) entries, leaving carried-forward (`False`) entries untouched; this
mirrors the aliasing of `new_or_modified` into `chunks`. -/
def assignBlocks : List (Bool × List Chunk) → List (List ℚ) → List (List Chunk)
  | [], _ => []
  | (false, cs) :: r, vs => cs :: assignBlocks r vs
  | (true, cs) :: r, vs => zipAssign cs vs :: assignBlocks r (vs.drop cs.length)

/-- `build_index_incremental` with a total embedding oracle: the persisted
and returned chunk list. -/
def buildIndexIncremental (L : ℕ) (exts : List String)
    (e : List String → List (List ℚ)) (ws : List SrcFile)
    (store : List Chunk) : List Chunk :=
  let entries := incrementalEntries L exts store ws
  (assignBlocks entries (e (incrementalEmbedTexts L exts store ws))).flatten

/-! ### Staleness checker (`_is_index_stale`, tools.py lines 342-362) -/

/-- `unique_files` as an association list in first-occurrence order: each
distinct chunk path with the modification time of its first chunk. -/
def uniqueFilePairs (chunks : List Chunk) : List (String × ℚ) :=
  chunks.foldl
    (fun acc c =>
      if acc.any fun pt => decide (pt.1 = c.path) then acc
      else acc ++ [(c.path, c.modified_time)])
    []

/-- The per-file staleness test: stale when the file no longer exists
(`fsMtime` returns `none`) or its current modification time is strictly
greater than the recorded one. -/
def isStaleOn (fsMtime : String → Option ℚ) (pairs : List (String × ℚ)) : Bool :=
  pairs.any fun pt =>
    match fsMtime pt.1 with
    | none => true
    | some m => decide (pt.2 < m)

/-- Model of `_is_index_stale`: when the distinct-file count is within
`maxSamples` every file is checked, otherwise only the `sample` chosen by
the `random.sample` oracle is checked. -/
def isIndexStale (fsMtime : String → Option ℚ) (indexedChunks : List Chunk)
    (maxSamples : ℕ) (sample : List (String × ℚ)) : Bool :=
  isStaleOn fsMtime
    (if (uniqueFilePairs indexedChunks).length ≤ maxSamples
     then uniqueFilePairs indexedChunks else sample)

/-! ### Pure helpers of tools.py -/

/-- The collecting loop of `_truncate_readme`: keep lines until the index
reaches `maxLines` or a second-level heading follows the first line. -/
def truncLines : List String → ℕ → ℕ → List String
  | [], _, _ => []
  | l :: rest, i, maxLines =>
    if maxLines ≤ i then []
    else if decide (0 < i) && strStartsWith (pyStrip l) "## " then []
    else l :: truncLines rest (i + 1) maxLines

/-- Model of `_truncate_readme` (tools.py lines 14-34). -/
def truncateReadme (readme : String) (maxLines : ℕ) : String :=
  if readme = "" then ""
  else
    let lines := readme.splitOn "\n"
    let truncated := truncLines lines 0 maxLines
    let result := String.intercalate "\n" truncated
    if truncated.length < lines.length then
      result ++ "\n\n... (README truncated, " ++
        Nat.repr (lines.length - truncated.length) ++ " more lines)"
    else result

/-- Model of `_limit_search_results` (tools.py lines 37-50). -/
def limitSearchResults (searchOutput : String) (maxResults : ℕ) : String :=
  if searchOutput = "" || strContains searchOutput "No direct matches" then searchOutput
  else
    let lines := searchOutput.splitOn "\n"
    if lines.length ≤ maxResults * 5 then searchOutput
    else
      String.intercalate "\n" (lines.take (maxResults * 5)) ++
        "\n\n... (showing top " ++ Nat.repr maxResults ++ " matches)"

/-! ### RAG settings (`_load_rag_settings`, tools.py lines 183-205) -/

/-- Outcome of reading `config/memory.yaml`, at the granularity the code
inspects it: missing file, unreadable or unparsable file, or a parsed
document with an optional `rag_profile` entry carrying optional
`rag_enabled` and `rag_top_k` metadata. -/
inductive RagConfigFile where
  | missing
  | unreadable
  | profiles (ragProfile : Option (Option Bool × Option ℕ))
  deriving DecidableEq

/-- Model of `_load_rag_settings`: the resolved `(enabled, top_k)` pair,
defaulting to `(true, 6)` in every failure case. -/
def loadRagSettings : RagConfigFile → Bool × ℕ
  | .missing => (true, 6)
  | .unreadable => (true, 6)
  | .profiles none => (true, 6)
  | .profiles (some (en, k)) => (en.getD true, k.getD 6)

/-! ### Cosine similarity and retrieval (rag.py lines 269-295)

Stored vector components are rationals (floats are rational values); the
arithmetic of `cosine_similarity`, which takes a square root, is carried
out in the reals. -/

/-- The local `dot = sum(x * y for x, y in zip(a, b))` of `cosine_similarity`. -/
def dotSum (a b : List ℚ) : ℚ :=
  (List.zipWith (fun x y => x * y) a b).sum

/-- The local `sum(x * x for x in a)` under the square root of
`cosine_similarity`. -/
def sumSquares (a : List ℚ) : ℚ :=
  (a.map fun x => x * x).sum

/-- Model of `cosine_similarity` (rag.py lines 287-295): `0.0` when either
vector is empty or the lengths differ, `0.0` when either norm (`na`, `nb`)
vanishes, otherwise the normalised dot product.  The local variables of the
source are inlined through `dotSum` and `sumSquares`. -/
noncomputable def cosine_similarity (a b : List ℚ) : ℝ :=
  if a = [] ∨ b = [] ∨ a.length ≠ b.length then 0
  else if Real.sqrt (sumSquares a : ℝ) = 0 ∨ Real.sqrt (sumSquares b : ℝ) = 0 then 0
  else (dotSum a b : ℝ) / (Real.sqrt (sumSquares a : ℝ) * Real.sqrt (sumSquares b : ℝ))

/-- The transient relevance score written onto a chunk during `retrieve`. -/
noncomputable def chunkScore (qv : List ℚ) (c : Chunk) : ℝ :=
  cosine_similarity qv c.embedding

/-- The descending-by-key relation used to model
`sorted(chunks, key=lambda c: c.score, reverse=True)`. -/
def keyDescRel (key : α → ℝ) : α → α → Prop :=
  fun x y => key y ≤ key x

noncomputable instance (key : α → ℝ) : DecidableRel (keyDescRel key) :=
  fun a b => Real.decidableLE (key b) (key a)

instance (key : α → ℝ) : IsTrans α (keyDescRel key) :=
  ⟨fun _ _ _ h h2 => le_trans h2 h⟩

instance (key : α → ℝ) : IsTotal α (keyDescRel key) :=
  ⟨fun a b => le_total (key b) (key a)⟩

/-- Stable descending sort by a real-valued key.  Python `sorted` is a
stable sort, and a stable sort by a total preorder is unique, so any stable
implementation (here: insertion sort) is a faithful model. -/
noncomputable def sortByKeyDesc (key : α → ℝ) (l : List α) : List α :=
  l.insertionSort (keyDescRel key)

/-- The full ranking computed inside `retrieve`: every loaded chunk, sorted
by descending cosine similarity against the query vector, ties keeping
their loaded order. -/
noncomputable def rankChunks (qv : List ℚ) (chunks : List Chunk) : List Chunk :=
  sortByKeyDesc (chunkScore qv) chunks

/-- Model of `Retriever.retrieve` (rag.py lines 275-284) given the loaded
chunk sequence and the vectors returned by `embed([query])`: empty result
when no query vector was produced, otherwise the first `top_k` of the full
ranking. -/
noncomputable def retrieve (chunks : List Chunk) (queryVecs : List (List ℚ))
    (top_k : ℕ) : List Chunk :=
  match queryVecs with
  | [] => []
  | qv :: _ => (rankChunks qv chunks).take top_k

/-! ### The RAG path of the evidence aggregator (`_run_rag`,
tools.py lines 208-227) -/

/-- `build_index` with a fallible embedder: a transport failure inside the
batched embedding call aborts the build with the raised message. -/
def buildIndexE (L : ℕ) (exts : List String)
    (embed : List String → Except String (List (List ℚ)))
    (ws : List SrcFile) : Except String (List Chunk) :=
  let cs := buildIndexChunks L exts ws
  match embed (cs.map fun c => c.text) with
  | .error err => .error err
  | .ok vs => .ok (zipAssign cs vs)

/-- `Retriever._maybe_load_index`: load the store, falling back to a full
build when it is empty. -/
def maybeLoadIndexE (L : ℕ) (exts : List String)
    (embed : List String → Except String (List (List ℚ)))
    (ws : List SrcFile) (st : StoreState) : Except String (List Chunk) :=
  let cs := storeLoad st
  if cs = [] then buildIndexE L exts embed ws else .ok cs

/-- Rendering of one retrieved chunk
(`f"{c.path}:{c.start_line}-{c.end_line} (score={c.score:.3f})\n{c.text.strip()}"`).
The three-decimal float formatting is abstracted by `formatScore`. -/
noncomputable def renderRagChunk (formatScore : ℝ → String) (qv : List ℚ)
    (c : Chunk) : String :=
  c.path ++ ":" ++ Nat.repr c.start_line ++ "-" ++ Nat.repr c.end_line ++
    " (score=" ++ formatScore (chunkScore qv c) ++ ")\n" ++ pyStrip c.text

/-- Model of `_run_rag`: the `(rag_snippets, rag_error)` pair.  Every
exception of the retrieval path (index build or query embedding) is caught
and rendered as a `"RAG retrieval failed: ..."` status string. -/
noncomputable def runRag (query : String) (L : ℕ) (exts : List String)
    (embed : List String → Except String (List (List ℚ)))
    (ws : List SrcFile) (st : StoreState) (formatScore : ℝ → String)
    (k : ℕ) : String × String :=
  if query = "" then ("", "RAG skipped (empty query).")
  else
    match maybeLoadIndexE L exts embed ws st with
    | .error err => ("", "RAG retrieval failed: " ++ err)
    | .ok chunks =>
      match embed [query] with
      | .error err => ("", "RAG retrieval failed: " ++ err)
      | .ok [] => ("No RAG matches found.", "RAG completed (no matches).")
      | .ok (qv :: rest) =>
        let rs := retrieve chunks (qv :: rest) k
        if rs = [] then ("No RAG matches found.", "RAG completed (no matches).")
        else
          (String.intercalate "\n\n" (rs.map (renderRagChunk formatScore qv)),
            "RAG completed.")

/-! ### The evidence aggregator (`search_codebase_tool`,
tools.py lines 53-180) -/

/-- The environment of one `search_codebase_tool` call: every filesystem,
subprocess and network interaction the function performs, as oracle data.
Each fallible interaction that the source handles locally is an `Except`;
with that, the modelled function is total, mirroring the fact that the
source returns a string on every one of these outcomes. -/
structure ToolEnv where
  allFiles : List String
  readmeRead : Except String String
  directSnippets : String
  ragCfg : RagConfigFile
  storeState : StoreState
  ws : List SrcFile
  embed : List String → Except String (List (List ℚ))
  formatScore : ℝ → String
  rgAvailable : Bool
  areaExists : String → Bool
  rgOut : String → String

/-- One iteration of the ripgrep loop: the area path is resolved against
the workspace root, skipped when it does not exist, and contributes its
stripped standard output when that is nonempty. -/
def rgAreaPiece (env : ToolEnv) (workspaceRoot a : String) : Option String :=
  if env.areaExists (if isAbsPath a then a else pathJoin workspaceRoot a) then
    (if pyStrip (env.rgOut (if isAbsPath a then a else pathJoin workspaceRoot a)) = ""
     then none
     else some (pyStrip (env.rgOut
       (if isAbsPath a then a else pathJoin workspaceRoot a))))
  else none

/-- The raw ripgrep section text: skipped for an empty query, an
explanatory string when ripgrep is missing, otherwise the stripped
concatenation of the per-directory outputs of existing search areas. -/
def rawSearchSnippets (env : ToolEnv) (query workspaceRoot : String)
    (focusAreas : Option (List String)) : String :=
  if query = "" then ""
  else if env.rgAvailable then
    pyStrip (String.intercalate "\n\n"
      ((match focusAreas with
        | none => [workspaceRoot]
        | some [] => [workspaceRoot]
        | some ds => ds).filterMap (rgAreaPiece env workspaceRoot)))
  else "ripgrep (`rg`) is not installed, so code search is unavailable."

/-- Model of `search_codebase_tool`.  The function body of the source is
wrapped in a global `try`; every failure mode of the body is represented in
`ToolEnv` and handled locally, so the model is a total function into
`String` and the bundle shape is independent of the environment. -/
noncomputable def searchCodebaseTool (env : ToolEnv) (query : String)
    (focusAreas : Option (List String)) (workspaceRoot : String)
    (questionType : Option String) : String :=
  let focusAreas2 :=
    if questionType = some "configuration" ∧ (focusAreas = none ∨ focusAreas = some [])
    then some ["config", "docs"] else focusAreas
  let files := env.allFiles.filter fun f =>
    !(strContains f ".git" || strContains f "venv" || strContains f "__pycache__")
  let previewFiles := files.take 200
  let fileList0 := String.intercalate "\n" previewFiles
  let fileList :=
    if previewFiles.length < files.length then
      fileList0 ++ "\n... and " ++ Nat.repr (files.length - previewFiles.length) ++
        " more files"
    else fileList0
  let readmeFiles := files.filter fun f => strContains f.toLower "readme"
  let readmeContent :=
    match readmeFiles with
    | [] => ""
    | _ :: _ =>
      match env.readmeRead with
      | .ok content => content
      | .error e => "Error reading README: " ++ e
  let ragMeta := loadRagSettings env.ragCfg
  let ragPair : String × Option String :=
    if ragMeta.1 then
      let pr := runRag query 120 defaultIncludeExt env.embed env.ws env.storeState
        env.formatScore ragMeta.2
      (pr.1, some pr.2)
    else ("", none)
  let searchSnippets0 := rawSearchSnippets env query workspaceRoot focusAreas2
  let searchSnippets :=
    if searchSnippets0 = "" then "No direct matches found for the query."
    else searchSnippets0
  let filteredReadme : Option String :=
    if questionType = some "overview" then some (truncateReadme readmeContent 50)
    else if questionType = some "lookup" then none
    else if questionType = some "implementation" then none
    else if questionType = some "configuration" then none
    else some readmeContent
  let filteredSearch :=
    if questionType = some "overview" then limitSearchResults searchSnippets 3
    else if questionType = some "lookup" then limitSearchResults searchSnippets 5
    else if questionType = some "implementation" then limitSearchResults searchSnippets 3
    else if questionType = some "configuration" then limitSearchResults searchSnippets 3
    else searchSnippets
  let ragStatusText :=
    match ragPair.2 with
    | none => "RAG retrieval attempted."
    | some s => if s = "" then "RAG retrieval attempted." else s
  let sections :=
    ["## Query\n" ++ query,
     "## Search Snippets\n" ++
       (if filteredSearch = "" then "No direct matches found for the query."
        else filteredSearch),
     "## RAG Snippets\n" ++
       (if ragPair.1 = "" then "RAG disabled or no matches found." else ragPair.1),
     "## RAG Status\n" ++ ragStatusText,
     "## Direct File Snippets\n" ++
       (if env.directSnippets = "" then "No direct file references found in the query."
        else env.directSnippets)] ++
    (match filteredReadme with
     | none => []
     | some r => ["## README\n" ++ (if r = "" then "No README file found." else r)]) ++
    ["## Project File Listing (partial)\n" ++
       (if fileList = "" then "No files were listed." else fileList)]
  String.intercalate "\n\n" sections

/-! ### Derived definitions used in the verification -/

/-- Big-endian decimal digit characters of a natural number. -/
def decChars (n : ℕ) : List Char :=
  if n < 10 then [Nat.digitChar n]
  else decChars (n / 10) ++ [Nat.digitChar (n % 10)]
termination_by n
decreasing_by exact Nat.div_lt_self (by omega) (by omega)

/-- Decimal value of a big-endian digit-character list. -/
def decValue (l : List Char) : ℕ :=
  l.foldl (fun a c => 10 * a + (c.toNat - 48)) 0

/-- The text of the `j`-th window of a file. -/
def windowText (L : ℕ) (lines : List String) (j : ℕ) : String :=
  pyJoin ((lines.drop (j * L)).take L)

/-- All window texts of a file, kept or not. -/
def windowTexts (L : ℕ) (lines : List String) : List String :=
  (List.range (numWindows L lines.length)).map (windowText L lines)

/-- The chunk built from the kept window `j` of a file. -/
def windowChunk (L : ℕ) (rel : String) (mtime : ℚ) (lines : List String)
    (j : ℕ) : Chunk :=
  { id := chunkId rel (j * L + 1) (min (j * L + L) lines.length)
    path := rel
    start_line := j * L + 1
    end_line := min (j * L + L) lines.length
    text := windowText L lines j
    embedding := []
    modified_time := mtime }

/-- All fields of a chunk except the embedding vector. -/
def chunkCore (c : Chunk) : String × String × ℕ × ℕ × String × ℚ × ℚ :=
  (c.id, c.path, c.start_line, c.end_line, c.text, c.score, c.modified_time)

/-- What holds of the output block of a re-chunked (new or modified) file:
it is empty exactly when the file chunks to nothing, and each of its
members agrees with a freshly produced chunk in every field except the
embedding vector (which the positional zip may have filled in). -/
def freshBlock (L : ℕ) (f : SrcFile) (b : List Chunk) : Prop :=
  (b = [] ↔ fileChunks L f.rel f.mtime f.lines = []) ∧
  ∀ c ∈ b, ∃ c0 ∈ fileChunks L f.rel f.mtime f.lines, chunkCore c = chunkCore c0

/-- The invariant tying each walked file to its output block of one
incremental run against `store`. -/
def entryBlockInv (L : ℕ) (store : List Chunk) (f : SrcFile) (b : List Chunk) : Prop :=
  (∀ c ∈ b, c.path = f.rel) ∧
  match lookupMtime store f.rel with
  | some old =>
    (f.mtime ≤ old → b = store.filter fun c => decide (c.path = f.rel)) ∧
    (old < f.mtime → freshBlock L f b)
  | none => freshBlock L f b

/-! ### Concrete instances used by the closed evaluation theorems -/

/-- An embedding oracle returning one fixed vector for any batch. -/
def demoEmbed : List String → List (List ℚ) := fun _ => [[5]]

/-- A small already-indexed workspace file. -/
def demoFileA : SrcFile :=
  { dir := "/w", fname := "a.py", rel := "a.py", mtime := 1, lines := ["x = 1\n"] }

/-- A small not-yet-indexed workspace file. -/
def demoFileB : SrcFile :=
  { dir := "/w", fname := "b.py", rel := "b.py", mtime := 2, lines := ["y = 2\n"] }

/-- A two-file workspace in walk order. -/
def demoWs : List SrcFile := [demoFileA, demoFileB]

/-- The persisted chunk of `demoFileA` from an earlier index generation. -/
def demoStoredChunk : Chunk :=
  { id := "a.py:1-1", path := "a.py", start_line := 1, end_line := 1,
    text := "x = 1\n", embedding := [1, 0], score := 0, modified_time := 1 }

/-- A persisted store holding only the chunk of `demoFileA`. -/
def demoStore : List Chunk := [demoStoredChunk]

/-- A filesystem-time oracle matching `demoStore` exactly. -/
def demoFsMtime : String → Option ℚ :=
  fun p => if p = "a.py" then some 1 else none

/-- A filesystem-time oracle on which every indexed file is missing. -/
def demoFsMissing : String → Option ℚ := fun _ => none

/-- A loaded chunk with an empty embedding vector. -/
def demoChunkE1 : Chunk :=
  { id := "e1", path := "p", start_line := 1, end_line := 1, text := "t",
    embedding := [] }

/-- A second loaded chunk with an empty embedding vector. -/
def demoChunkE2 : Chunk :=
  { id := "e2", path := "p", start_line := 2, end_line := 2, text := "u",
    embedding := [] }

/-- The environment induced by a nonexistent workspace root: the recursive
glob lists nothing, no README candidate exists, no direct file token
resolves, no configuration file exists, no index file exists, the walk
visits no files, and no ripgrep search area exists.  The embedding oracle
and the score formatter stay abstract. -/
def nonexistentRootEnv (embed : List String → Except String (List (List ℚ)))
    (fmt : ℝ → String) : ToolEnv :=
  { allFiles := []
    readmeRead := Except.error "no such file"
    directSnippets := ""
    ragCfg := RagConfigFile.missing
    storeState := none
    ws := []
    embed := embed
    formatScore := fmt
    rgAvailable := true
    areaExists := fun _ => false
    rgOut := fun _ => "" }

/-- An embedding oracle that succeeds on the empty batch and fails with a
transport error on any nonempty batch. -/
def demoFailEmbed : List String → Except String (List (List ℚ)) :=
  fun ts => if ts = [] then Except.ok [] else Except.error "connection refused"

/-- A fixed three-decimal score formatter stand-in. -/
def demoFmt : ℝ → String := fun _ => "0.000"

/-! ### Decimal representation of naturals

`Nat.repr` is the decimal rendering used by the id strings of chunks.  The
following reduces it to a structural recursion and proves it injective and
dash-free, which is what the uniqueness of `path:start-end` ids rests on. -/



theorem toDigitsCore_eq_decChars :
    ∀ (fuel n : ℕ) (acc : List Char), n < fuel →
      Nat.toDigitsCore 10 fuel n acc = decChars n ++ acc := by
  intro fuel
  induction fuel with
  | zero => intro n acc h; omega
  | succ fuel ih =>
    intro n acc h
    rw [decChars]
    by_cases h10 : n < 10
    · have hdiv : n / 10 = 0 := Nat.div_eq_of_lt h10
      have hmod : n % 10 = n := Nat.mod_eq_of_lt h10
      simp [Nat.toDigitsCore, hdiv, hmod, h10]
    · have hdiv : n / 10 ≠ 0 := by
        intro hz
        have h1 := Nat.div_add_mod n 10
        have h2 : n % 10 < 10 := Nat.mod_lt _ (by omega)
        rw [hz] at h1
        omega
      have hlt : n / 10 < fuel := by
        have h1 : n / 10 < n := Nat.div_lt_self (by omega) (by omega)
        omega
      simp only [Nat.toDigitsCore, hdiv, if_false, h10]
      rw [ih (n / 10) (Nat.digitChar (n % 10) :: acc) hlt]
      simp

theorem natRepr_eq_decChars (n : ℕ) : Nat.repr n = (decChars n).asString := by
  have h := toDigitsCore_eq_decChars (n + 1) n [] (by omega)
  simp only [List.append_nil] at h
  simp [Nat.repr, Nat.toDigits, h]



theorem digitChar_val (d : ℕ) (h : d < 10) : (Nat.digitChar d).toNat - 48 = d := by
  interval_cases d <;> decide

theorem decValue_append_singleton (l : List Char) (c : Char) :
    decValue (l ++ [c]) = 10 * decValue l + (c.toNat - 48) := by
  simp [decValue]

theorem decValue_decChars (n : ℕ) : decValue (decChars n) = n := by
  induction n using Nat.strong_induction_on with
  | _ n ih =>
    rw [decChars]
    by_cases h10 : n < 10
    · simp only [h10, if_true]
      simpa [decValue] using digitChar_val n h10
    · simp only [h10, if_false]
      rw [decValue_append_singleton,
        ih (n / 10) (Nat.div_lt_self (by omega) (by omega)),
        digitChar_val (n % 10) (Nat.mod_lt n (by omega))]
      omega

theorem decChars_injective : Function.Injective decChars := by
  intro a b h
  rw [← decValue_decChars a, ← decValue_decChars b, h]

theorem natRepr_injective : Function.Injective Nat.repr := by
  intro a b h
  rw [natRepr_eq_decChars, natRepr_eq_decChars] at h
  have hd : decChars a = decChars b := congrArg String.data h
  exact decChars_injective hd

theorem decChars_no_dash (n : ℕ) : ∀ c ∈ decChars n, c ≠ '-' := by
  induction n using Nat.strong_induction_on with
  | _ n ih =>
    rw [decChars]
    by_cases h10 : n < 10
    · simp only [h10, if_true, List.mem_singleton]
      intro c hc
      subst hc
      interval_cases n <;> decide
    · simp only [h10, if_false, List.mem_append, List.mem_singleton]
      intro c hc
      rcases hc with hc | hc
      · exact ih (n / 10) (Nat.div_lt_self (by omega) (by omega)) c hc
      · subst hc
        have hm : n % 10 < 10 := Nat.mod_lt n (by omega)
        interval_cases h : (n % 10) <;> simp_all <;> decide

theorem natRepr_no_dash (n : ℕ) : '-' ∉ (Nat.repr n).data := by
  rw [natRepr_eq_decChars]
  intro hmem
  exact decChars_no_dash n '-' hmem rfl

theorem dash_split :
    ∀ (a₁ a₂ b₁ b₂ : List Char), '-' ∉ a₁ → '-' ∉ a₂ →
      a₁ ++ '-' :: b₁ = a₂ ++ '-' :: b₂ → a₁ = a₂ ∧ b₁ = b₂ := by
  intro a₁
  induction a₁ with
  | nil =>
    intro a₂ b₁ b₂ _ h₂ heq
    cases a₂ with
    | nil => simpa using heq
    | cons c t =>
      simp only [List.nil_append, List.cons_append, List.cons.injEq] at heq
      exact absurd heq.1 (by simp at h₂; exact h₂.1)
  | cons c t ih =>
    intro a₂ b₁ b₂ h₁ h₂ heq
    cases a₂ with
    | nil =>
      simp only [List.nil_append, List.cons_append, List.cons.injEq] at heq
      exact absurd heq.1.symm (by simp at h₁; exact h₁.1)
    | cons d u =>
      simp only [List.cons_append, List.cons.injEq] at heq
      obtain ⟨hcd, hrest⟩ := heq
      have := ih u b₁ b₂ (by simp at h₁; exact h₁.2) (by simp at h₂; exact h₂.2) hrest
      exact ⟨by rw [hcd, this.1], this.2⟩

theorem string_data_inj {s t : String} (h : s.data = t.data) : s = t := by
  cases s
  cases t
  exact congrArg String.mk h

theorem chunkId_inj (rel : String) (s₁ e₁ s₂ e₂ : ℕ)
    (h : chunkId rel s₁ e₁ = chunkId rel s₂ e₂) : s₁ = s₂ ∧ e₁ = e₂ := by
  have hd : (chunkId rel s₁ e₁).data = (chunkId rel s₂ e₂).data := congrArg String.data h
  simp only [chunkId, String.data_append, List.append_assoc] at hd
  have hd2 := List.append_cancel_left hd
  simp only [List.singleton_append, List.cons.injEq, true_and] at hd2
  have hsplit := dash_split (Nat.repr s₁).data (Nat.repr s₂).data
    (Nat.repr e₁).data (Nat.repr e₂).data (natRepr_no_dash s₁) (natRepr_no_dash s₂) hd2
  constructor
  · exact natRepr_injective (string_data_inj hsplit.1)
  · exact natRepr_injective (string_data_inj hsplit.2)

/-! ### Elementary lemmas about the string and chunking primitives -/

theorem string_append_assoc (a b c : String) : a ++ b ++ c = a ++ (b ++ c) := by
  apply string_data_inj
  simp [String.data_append, List.append_assoc]

theorem pyJoin_append (xs ys : List String) :
    pyJoin (xs ++ ys) = pyJoin xs ++ pyJoin ys := by
  induction xs with
  | nil =>
    apply string_data_inj
    simp [pyJoin, String.data_append]
  | cons s rest ih =>
    simp only [List.cons_append, pyJoin, List.append_eq]
    rw [ih, string_append_assoc]





theorem numWindows_zero (L : ℕ) : numWindows L 0 = 0 := by
  unfold numWindows
  cases L with
  | zero => simp
  | succ k => exact Nat.div_eq_of_lt (by omega)

theorem numWindows_succ {L n : ℕ} (hL : 0 < L) (hn : 0 < n) :
    numWindows L n = numWindows L (n - L) + 1 := by
  unfold numWindows
  rcases le_or_lt L n with h | h
  · have h1 : n + L - 1 = (n - 1) + L := by omega
    have h2 : n - L + L - 1 = n - 1 := by omega
    rw [h1, h2, Nat.add_div_right _ hL]
  · have h1 : n - L = 0 := by omega
    rw [h1]
    have h2 : (0 + L - 1) / L = 0 := Nat.div_eq_of_lt (by omega)
    rw [h2]
    have lo : 1 * L ≤ n + L - 1 := by omega
    have hi : n + L - 1 < 2 * L := by omega
    have h3 : 1 ≤ (n + L - 1) / L := (Nat.le_div_iff_mul_le hL).mpr lo
    have h4 : (n + L - 1) / L < 2 := by
      by_contra hc
      push_neg at hc
      have h5 := (Nat.le_div_iff_mul_le hL).mp hc
      omega
    omega

theorem windowTexts_cons {L : ℕ} (hL : 0 < L) (lines : List String)
    (hn : 0 < lines.length) :
    windowTexts L lines = windowText L lines 0 :: windowTexts L (lines.drop L) := by
  unfold windowTexts
  rw [numWindows_succ hL hn, List.range_succ_eq_map, List.map_cons, List.map_map,
    List.length_drop]
  congr 1
  apply List.map_congr_left
  intro j _
  simp only [Function.comp_apply, windowText, List.drop_drop]
  have hjl : j.succ * L = L + j * L := by
    rw [Nat.succ_mul]
    omega
  rw [hjl]

theorem pyJoin_windowTexts {L : ℕ} (hL : 0 < L) (lines : List String) :
    pyJoin (windowTexts L lines) = pyJoin lines := by
  generalize hgen : lines.length = n
  induction n using Nat.strong_induction_on generalizing lines with
  | _ n ih =>
    rcases Nat.eq_zero_or_pos n with hz | hp
    · subst hz
      have : lines = [] := List.length_eq_zero.mp hgen
      subst this
      simp [windowTexts, numWindows_zero]
    · rw [windowTexts_cons hL lines (hgen ▸ hp), pyJoin]
      have hdlen : (lines.drop L).length = n - L := by
        rw [List.length_drop, hgen]
      rw [ih (n - L) (by omega) (lines.drop L) hdlen]
      have : windowText L lines 0 = pyJoin (lines.take L) := by
        simp [windowText]
      rw [this, ← pyJoin_append, List.take_append_drop]

theorem filterMap_if_eq_filter_map (p : α → Bool) (g : α → β) (l : List α) :
    (l.filterMap fun a => if p a then none else some (g a)) =
      (l.filter fun a => !p a).map g := by
  induction l with
  | nil => rfl
  | cons a t ih =>
    by_cases h : p a <;> simp [List.filterMap_cons, List.filter_cons, h, ih]


theorem fileChunks_eq_filter_map (L : ℕ) (rel : String) (mtime : ℚ)
    (lines : List String) :
    fileChunks L rel mtime lines =
      ((List.range (numWindows L lines.length)).filter
        (fun j => !isBlank (windowText L lines j))).map
        (windowChunk L rel mtime lines) := by
  unfold fileChunks
  rw [← filterMap_if_eq_filter_map]
  apply List.filterMap_congr
  intro j _
  by_cases h : isBlank (pyJoin ((lines.drop (j * L)).take L))
  · simp [windowText, h]
  · simp [windowText, windowChunk, h]

theorem range_numWindows_mul_lt {L n j : ℕ} (hL : 0 < L)
    (hj : j ∈ List.range (numWindows L n)) : j * L < n := by
  rw [List.mem_range] at hj
  have h1 : j + 1 ≤ (n + L - 1) / L := hj
  have h2 : (j + 1) * L ≤ n + L - 1 := (Nat.le_div_iff_mul_le hL).mp h1
  have h3 : j * L + L ≤ n + L - 1 := by
    calc j * L + L = (j + 1) * L := by ring
    _ ≤ n + L - 1 := h2
  set m := j * L with hm
  omega

theorem windowChunk_start_le_end {L : ℕ} (hL : 0 < L) (rel : String) (mtime : ℚ)
    (lines : List String) {j : ℕ} (hj : j * L < lines.length) :
    (windowChunk L rel mtime lines j).start_line ≤
      (windowChunk L rel mtime lines j).end_line := by
  simp only [windowChunk]
  set m := j * L with hm
  exact le_min (by omega) (by omega)

/-! ### Lemmas about positional embedding assignment -/



theorem chunkCore_setEmbedding (c : Chunk) (v : List ℚ) :
    chunkCore (setEmbedding c v) = chunkCore c := rfl

theorem zipAssign_nil_left (vs : List (List ℚ)) : zipAssign [] vs = [] := by
  simp [zipAssign]

theorem zipAssign_nil_right (cs : List Chunk) : zipAssign cs [] = cs := by
  simp [zipAssign]

theorem zipAssign_cons_cons (c : Chunk) (cs : List Chunk) (v : List ℚ)
    (vs : List (List ℚ)) :
    zipAssign (c :: cs) (v :: vs) = setEmbedding c v :: zipAssign cs vs := by
  simp [zipAssign, List.zipWith_cons_cons]

theorem zipAssign_map_of_core (g : Chunk → γ)
    (hg : ∀ c v, g (setEmbedding c v) = g c) :
    ∀ (cs : List Chunk) (vs : List (List ℚ)),
      (zipAssign cs vs).map g = cs.map g := by
  intro cs
  induction cs with
  | nil => intro vs; simp [zipAssign_nil_left]
  | cons c t ih =>
    intro vs
    cases vs with
    | nil => rw [zipAssign_nil_right]
    | cons v vt => rw [zipAssign_cons_cons, List.map_cons, List.map_cons, hg, ih]

theorem zipAssign_mem_core {cs : List Chunk} {vs : List (List ℚ)} {c2 : Chunk}
    (h : c2 ∈ zipAssign cs vs) : ∃ c ∈ cs, chunkCore c2 = chunkCore c := by
  induction cs generalizing vs with
  | nil => rw [zipAssign_nil_left] at h; cases h
  | cons c t ih =>
    cases vs with
    | nil =>
      rw [zipAssign_nil_right] at h
      exact ⟨c2, h, rfl⟩
    | cons v vt =>
      rw [zipAssign_cons_cons] at h
      rcases List.mem_cons.mp h with h | h
      · exact ⟨c, List.mem_cons_self c t, by rw [h, chunkCore_setEmbedding]⟩
      · obtain ⟨c0, hc0, hcore⟩ := ih h
        exact ⟨c0, List.mem_cons_of_mem c hc0, hcore⟩

theorem zipAssign_path_mem {cs : List Chunk} {vs : List (List ℚ)} {rel : String}
    (hall : ∀ c ∈ cs, c.path = rel) :
    ∀ c2 ∈ zipAssign cs vs, c2.path = rel := by
  intro c2 h2
  obtain ⟨c, hc, hcore⟩ := zipAssign_mem_core h2
  have : c2.path = c.path := congrArg (fun t => t.2.1) hcore
  rw [this]
  exact hall c hc

theorem zipAssign_eq_nil_iff (cs : List Chunk) (vs : List (List ℚ)) :
    zipAssign cs vs = [] ↔ cs = [] := by
  cases cs with
  | nil => simp [zipAssign_nil_left]
  | cons c t =>
    cases vs with
    | nil => simp [zipAssign_nil_right]
    | cons v vt => simp [zipAssign_cons_cons]

/-! ### Per-file facts about `fileChunks` -/

theorem fileChunks_path (L : ℕ) (rel : String) (mtime : ℚ) (lines : List String) :
    ∀ c ∈ fileChunks L rel mtime lines, c.path = rel := by
  intro c hc
  rw [fileChunks_eq_filter_map] at hc
  obtain ⟨j, _, hj⟩ := List.mem_map.mp hc
  rw [← hj]
  rfl

theorem fileChunks_mtime (L : ℕ) (rel : String) (mtime : ℚ) (lines : List String) :
    ∀ c ∈ fileChunks L rel mtime lines, c.modified_time = mtime := by
  intro c hc
  rw [fileChunks_eq_filter_map] at hc
  obtain ⟨j, _, hj⟩ := List.mem_map.mp hc
  rw [← hj]
  rfl

theorem fileChunks_ids_nodup {L : ℕ} (hL : 0 < L) (rel : String) (mtime : ℚ)
    (lines : List String) :
    ((fileChunks L rel mtime lines).map fun c => c.id).Nodup := by
  rw [fileChunks_eq_filter_map, List.map_map]
  apply List.Nodup.map_on
  · intro x hx y hy hxy
    simp only [Function.comp_apply, windowChunk] at hxy
    have h1 := (chunkId_inj rel _ _ _ _ hxy).1
    have h2 : x * L = y * L := by omega
    exact Nat.eq_of_mul_eq_mul_right hL h2
  · exact (List.nodup_range _).filter _

/-! ### Helper lemmas about filtering and flattening path-homogeneous blocks -/

theorem find?_eq_head_filter (p : α → Bool) : ∀ l : List α, l.find? p = (l.filter p).head?
  | [] => rfl
  | a :: t => by
    by_cases h : p a
    · simp [List.find?_cons, h, List.filter_cons]
    · simp only [List.find?_cons, List.filter_cons, h]
      simp only [Bool.false_eq_true, if_false, cond_false]
      exact find?_eq_head_filter p t

theorem flatten_paths_of_forall₂ {rels : List String} {blocks : List (List Chunk)}
    (h : List.Forall₂ (fun r b => ∀ c ∈ b, c.path = r) rels blocks) :
    ∀ c ∈ blocks.flatten, ∃ r ∈ rels, c.path = r := by
  induction h with
  | nil => intro c hc; cases hc
  | cons h1 h2 ih =>
    intro c hc
    rw [List.flatten_cons, List.mem_append] at hc
    rcases hc with hc | hc
    · exact ⟨_, List.mem_cons_self _ _, h1 c hc⟩
    · obtain ⟨r, hr, hcr⟩ := ih c hc
      exact ⟨r, List.mem_cons_of_mem _ hr, hcr⟩

theorem filter_flatten_of_nodup {rels : List String} {blocks : List (List Chunk)}
    (h : List.Forall₂ (fun r b => ∀ c ∈ b, c.path = r) rels blocks)
    (hnd : rels.Nodup) :
    ∀ (i : ℕ) (hi : i < rels.length) (hbi : i < blocks.length),
      blocks.flatten.filter (fun c => decide (c.path = rels.get ⟨i, hi⟩)) =
        blocks.get ⟨i, hbi⟩ := by
  induction h with
  | nil => intro i hi hbi; simp at hi
  | @cons r b rels blocks h1 h2 ih =>
    intro i hi hbi
    have hndt := List.nodup_cons.mp hnd
    cases i with
    | zero =>
      simp only [List.get, List.flatten_cons, List.filter_append]
      have hb : b.filter (fun c => decide (c.path = r)) = b := by
        rw [List.filter_eq_self]
        intro c hc
        simp [h1 c hc]
      have hrest : blocks.flatten.filter (fun c => decide (c.path = r)) = [] := by
        rw [List.filter_eq_nil_iff]
        intro c hc
        obtain ⟨r2, hr2, hcr2⟩ := flatten_paths_of_forall₂ h2 c hc
        simp only [decide_eq_true_eq]
        rw [hcr2]
        intro heq
        exact hndt.1 (heq ▸ hr2)
      rw [hb, hrest, List.append_nil]
    | succ j =>
      simp only [List.get, List.flatten_cons, List.filter_append]
      have hj : j < rels.length := by
        simp only [List.length_cons] at hi
        omega
      have hb : b.filter (fun c => decide (c.path = rels.get ⟨j, hj⟩)) = [] := by
        rw [List.filter_eq_nil_iff]
        intro c hc
        simp only [decide_eq_true_eq]
        rw [h1 c hc]
        intro heq
        exact hndt.1 (heq ▸ List.get_mem rels j hj)
      rw [hb, List.nil_append]
      exact ih hndt.2 j hj _

theorem lookup_flatten_of_nodup {rels : List String} {blocks : List (List Chunk)}
    (h : List.Forall₂ (fun r b => ∀ c ∈ b, c.path = r) rels blocks)
    (hnd : rels.Nodup) :
    ∀ (i : ℕ) (hi : i < rels.length) (hbi : i < blocks.length),
      lookupMtime blocks.flatten (rels.get ⟨i, hi⟩) =
        (blocks.get ⟨i, hbi⟩).head?.map fun c => c.modified_time := by
  intro i hi hbi
  unfold lookupMtime
  rw [find?_eq_head_filter, filter_flatten_of_nodup h hnd i hi hbi]

/-! ### The block structure of one incremental run -/





theorem freshBlock_zipAssign (L : ℕ) (f : SrcFile) (vs : List (List ℚ)) :
    freshBlock L f (zipAssign (fileChunks L f.rel f.mtime f.lines) vs) := by
  constructor
  · exact zipAssign_eq_nil_iff _ _
  · intro c hc
    exact zipAssign_mem_core hc

theorem assignBlocks_inv (L : ℕ) (store : List Chunk) :
    ∀ (fs : List SrcFile) (vs : List (List ℚ)),
      List.Forall₂ (entryBlockInv L store) fs
        (assignBlocks (fs.map (incrementalEntry L store)) vs) := by
  intro fs
  induction fs with
  | nil => intro vs; exact List.Forall₂.nil
  | cons f fs ih =>
    intro vs
    rw [List.map_cons]
    unfold incrementalEntry
    rcases hlk : lookupMtime store f.rel with _ | old
    · rw [assignBlocks]
      refine List.Forall₂.cons ?_ (ih _)
      refine ⟨?_, ?_⟩
      · exact zipAssign_path_mem (fileChunks_path L f.rel f.mtime f.lines)
      · rw [hlk]
        exact freshBlock_zipAssign L f vs
    · by_cases hle : f.mtime ≤ old
      · simp only [hle, if_true]
        rw [assignBlocks]
        refine List.Forall₂.cons ?_ (ih _)
        refine ⟨?_, ?_⟩
        · intro c hc
          have := List.mem_filter.mp hc
          exact of_decide_eq_true this.2
        · rw [hlk]
          exact ⟨fun _ => rfl, fun hlt => absurd hle (not_le.mpr hlt)⟩
      · simp only [hle, if_false]
        rw [assignBlocks]
        refine List.Forall₂.cons ?_ (ih _)
        refine ⟨?_, ?_⟩
        · exact zipAssign_path_mem (fileChunks_path L f.rel f.mtime f.lines)
        · rw [hlk]
          exact ⟨fun hle2 => absurd hle2 hle, fun _ => freshBlock_zipAssign L f vs⟩

theorem buildIndexIncremental_eq_flatten (L : ℕ) (exts : List String)
    (e : List String → List (List ℚ)) (ws : List SrcFile) (store : List Chunk) :
    buildIndexIncremental L exts e ws store =
      (assignBlocks ((walkFiles exts ws).map (incrementalEntry L store))
        (e (incrementalEmbedTexts L exts store ws))).flatten := rfl

/-! ### Glue for the idempotence and incrementality arguments -/

theorem entryBlockInv_paths {L : ℕ} {store : List Chunk} {fs : List SrcFile}
    {blocks : List (List Chunk)}
    (h : List.Forall₂ (entryBlockInv L store) fs blocks) :
    List.Forall₂ (fun r b => ∀ c ∈ b, c.path = r) (fs.map fun f => f.rel) blocks := by
  induction h with
  | nil => exact List.Forall₂.nil
  | cons h1 h2 ih => exact List.Forall₂.cons h1.1 ih

theorem assignBlocks_of_decided {fs : List SrcFile} {blocks : List (List Chunk)}
    (g : SrcFile → Bool × List Chunk)
    (h : List.Forall₂
      (fun f b => g f = (false, b) ∨ (g f = (true, []) ∧ b = [])) fs blocks) :
    ∀ vs, assignBlocks (fs.map g) vs = blocks := by
  induction h with
  | nil => intro vs; rfl
  | @cons f b fs blocks h1 h2 ih =>
    intro vs
    rw [List.map_cons]
    rcases h1 with h1 | ⟨h1, hb⟩
    · rw [h1, assignBlocks, ih]
    · rw [h1, hb, assignBlocks]
      simp only [zipAssign_nil_left, List.length_nil, List.drop_zero]
      rw [ih]

theorem chunkCore_mtime {c c0 : Chunk} (h : chunkCore c = chunkCore c0) :
    c.modified_time = c0.modified_time :=
  congrArg (fun t => t.2.2.2.2.2.2) h

theorem fresh_decided {L : ℕ} {f : SrcFile} {b : List Chunk} {s1 : List Chunk}
    (hfresh : freshBlock L f b)
    (hfilter : s1.filter (fun c => decide (c.path = f.rel)) = b)
    (hlookup : lookupMtime s1 f.rel = b.head?.map fun c => c.modified_time) :
    incrementalEntry L s1 f = (false, b) ∨
      (incrementalEntry L s1 f = (true, []) ∧ b = []) := by
  cases hb : b with
  | nil =>
    right
    refine ⟨?_, rfl⟩
    have hfc : fileChunks L f.rel f.mtime f.lines = [] := hfresh.1.mp hb
    have hlk2 : lookupMtime s1 f.rel = none := by rw [hlookup, hb]; rfl
    unfold incrementalEntry
    rw [hlk2, hfc]
  | cons c₁ t =>
    left
    have hc₁ : c₁ ∈ b := hb ▸ List.mem_cons_self c₁ t
    obtain ⟨c0, hc0, hcore⟩ := hfresh.2 c₁ hc₁
    have hmt : c₁.modified_time = f.mtime := by
      rw [chunkCore_mtime hcore]
      exact fileChunks_mtime L f.rel f.mtime f.lines c0 hc0
    have hlk2 : lookupMtime s1 f.rel = some f.mtime := by
      rw [hlookup, hb]
      simp [hmt]
    unfold incrementalEntry
    rw [hlk2]
    simp only [le_refl, if_true]
    rw [hfilter, hb]

theorem carried_decided {L : ℕ} {f : SrcFile} {b : List Chunk} {s1 store : List Chunk}
    {old : ℚ}
    (hlk : lookupMtime store f.rel = some old) (hle : f.mtime ≤ old)
    (hcarried : b = store.filter fun c => decide (c.path = f.rel))
    (hfilter : s1.filter (fun c => decide (c.path = f.rel)) = b)
    (hlookup : lookupMtime s1 f.rel = b.head?.map fun c => c.modified_time) :
    incrementalEntry L s1 f = (false, b) := by
  have hhead : b.head? = store.find? fun c => decide (c.path = f.rel) := by
    rw [hcarried, find?_eq_head_filter]
  have hlk2 : lookupMtime s1 f.rel = some old := by
    rw [hlookup, hhead]
    unfold lookupMtime at hlk
    exact hlk
  unfold incrementalEntry
  rw [hlk2]
  show (if f.mtime ≤ old then
      ((false, s1.filter fun c => decide (c.path = f.rel)) : Bool × List Chunk)
    else (true, fileChunks L f.rel f.mtime f.lines)) = (false, b)
  rw [if_pos hle, hfilter]

/-- The per-index facts of one incremental run needed by both the
idempotence and the incrementality claims. -/
theorem incremental_run_facts (L : ℕ) (exts : List String)
    (e : List String → List (List ℚ)) (ws : List SrcFile) (store : List Chunk)
    (hnd : ((walkFiles exts ws).map fun f => f.rel).Nodup)
    (i : ℕ) (hi : i < (walkFiles exts ws).length) :
    ∀ hbi : i <
      (assignBlocks ((walkFiles exts ws).map (incrementalEntry L store))
        (e (incrementalEmbedTexts L exts store ws))).length,
      entryBlockInv L store ((walkFiles exts ws).get ⟨i, hi⟩)
        ((assignBlocks ((walkFiles exts ws).map (incrementalEntry L store))
          (e (incrementalEmbedTexts L exts store ws))).get ⟨i, hbi⟩) ∧
      (buildIndexIncremental L exts e ws store).filter
        (fun c => decide (c.path = ((walkFiles exts ws).get ⟨i, hi⟩).rel)) =
        (assignBlocks ((walkFiles exts ws).map (incrementalEntry L store))
          (e (incrementalEmbedTexts L exts store ws))).get ⟨i, hbi⟩ ∧
      lookupMtime (buildIndexIncremental L exts e ws store)
        ((walkFiles exts ws).get ⟨i, hi⟩).rel =
        ((assignBlocks ((walkFiles exts ws).map (incrementalEntry L store))
          (e (incrementalEmbedTexts L exts store ws))).get ⟨i, hbi⟩).head?.map
          fun c => c.modified_time := by
  intro hbi
  have inv := assignBlocks_inv L store (walkFiles exts ws)
    (e (incrementalEmbedTexts L exts store ws))
  have hpaths := entryBlockInv_paths inv
  have hip : i < ((walkFiles exts ws).map fun f => f.rel).length := by
    simpa using hi
  have hrel : ((walkFiles exts ws).map fun f => f.rel).get ⟨i, hip⟩ =
      ((walkFiles exts ws).get ⟨i, hi⟩).rel := List.get_map _
  have hfilter := filter_flatten_of_nodup hpaths hnd i hip hbi
  have hlookup := lookup_flatten_of_nodup hpaths hnd i hip hbi
  rw [hrel] at hfilter hlookup
  refine ⟨?_, ?_, ?_⟩
  · exact (List.forall₂_iff_get.mp inv).2 i hi hbi
  · rw [buildIndexIncremental_eq_flatten]
    exact hfilter
  · rw [buildIndexIncremental_eq_flatten]
    exact hlookup

/-! ### Evaluation helpers for `incrementalEntry` -/

theorem entryBlockInv_lookup_none {L : ℕ} {store : List Chunk} {f : SrcFile}
    {b : List Chunk} (h : entryBlockInv L store f b)
    (hlk : lookupMtime store f.rel = none) : freshBlock L f b := by
  obtain ⟨h1, h2⟩ := h
  rw [hlk] at h2
  exact h2

theorem entryBlockInv_lookup_some {L : ℕ} {store : List Chunk} {f : SrcFile}
    {b : List Chunk} {old : ℚ} (h : entryBlockInv L store f b)
    (hlk : lookupMtime store f.rel = some old) :
    (f.mtime ≤ old → b = store.filter fun c => decide (c.path = f.rel)) ∧
    (old < f.mtime → freshBlock L f b) := by
  obtain ⟨h1, h2⟩ := h
  rw [hlk] at h2
  exact h2

theorem incrementalEntry_eval_none {L : ℕ} {store : List Chunk} {f : SrcFile}
    (hlk : lookupMtime store f.rel = none) :
    incrementalEntry L store f = (true, fileChunks L f.rel f.mtime f.lines) := by
  unfold incrementalEntry
  rw [hlk]

theorem incrementalEntry_eval_le {L : ℕ} {store : List Chunk} {f : SrcFile}
    {old : ℚ} (hlk : lookupMtime store f.rel = some old) (hle : f.mtime ≤ old) :
    incrementalEntry L store f =
      (false, store.filter fun c => decide (c.path = f.rel)) := by
  unfold incrementalEntry
  rw [hlk]
  show (if f.mtime ≤ old then
      ((false, store.filter fun c => decide (c.path = f.rel)) : Bool × List Chunk)
    else (true, fileChunks L f.rel f.mtime f.lines)) = _
  rw [if_pos hle]

theorem incrementalEntry_eval_gt {L : ℕ} {store : List Chunk} {f : SrcFile}
    {old : ℚ} (hlk : lookupMtime store f.rel = some old) (hgt : old < f.mtime) :
    incrementalEntry L store f = (true, fileChunks L f.rel f.mtime f.lines) := by
  unfold incrementalEntry
  rw [hlk]
  show (if f.mtime ≤ old then
      ((false, store.filter fun c => decide (c.path = f.rel)) : Bool × List Chunk)
    else (true, fileChunks L f.rel f.mtime f.lines)) = _
  rw [if_neg (not_le.mpr hgt)]

/-! ### Claim theorems -/

/-- C1: in an incremental build, only the chunks of new or modified files
are embedded: the single batched embedding call receives exactly the texts
of the `new_or_modified` chunks, one per chunk produced from a new or
modified file; and every already-indexed, unmodified file has all of its
chunks carried into the persisted set unchanged (same id, text, line range,
embedding vector and modified time, stated as equality of the full
per-path chunk lists). -/
theorem claim_C1 (L : ℕ) (exts : List String) (e : List String → List (List ℚ))
    (ws : List SrcFile) (store : List Chunk)
    (hnd : ((walkFiles exts ws).map fun f => f.rel).Nodup) :
    (∀ f ∈ walkFiles exts ws, ∀ old, lookupMtime store f.rel = some old →
      f.mtime ≤ old →
      (buildIndexIncremental L exts e ws store).filter
          (fun c => decide (c.path = f.rel)) =
        store.filter fun c => decide (c.path = f.rel)) ∧
    (∀ c ∈ incrementalDelta L exts store ws, ∃ f ∈ walkFiles exts ws,
      (lookupMtime store f.rel = none ∨
        ∃ old, lookupMtime store f.rel = some old ∧ old < f.mtime) ∧
      c ∈ fileChunks L f.rel f.mtime f.lines) ∧
    incrementalEmbedTexts L exts store ws =
      (incrementalDelta L exts store ws).map (fun c => c.text) ∧
    (incrementalEmbedTexts L exts store ws).length =
      (incrementalDelta L exts store ws).length := by
  refine ⟨?_, ?_, rfl, ?_⟩
  · intro f hf old hold hle
    obtain ⟨⟨i, h₁⟩, hget⟩ := List.mem_iff_get.mp hf
    have hlen := (assignBlocks_inv L store (walkFiles exts ws)
      (e (incrementalEmbedTexts L exts store ws))).length_eq
    have h₂ : i < (assignBlocks ((walkFiles exts ws).map (incrementalEntry L store))
        (e (incrementalEmbedTexts L exts store ws))).length := by omega
    obtain ⟨hi_inv, hfil, hlook⟩ := incremental_run_facts L exts e ws store hnd i h₁ h₂
    rw [hget] at hi_inv hfil
    obtain ⟨hc, _⟩ := entryBlockInv_lookup_some hi_inv hold
    exact hfil.trans (hc hle)
  · intro c hc
    unfold incrementalDelta at hc
    obtain ⟨en, hen, hcen⟩ := List.mem_flatMap.mp hc
    unfold incrementalEntries at hen
    obtain ⟨f, hf, hfe⟩ := List.mem_map.mp hen
    refine ⟨f, hf, ?_⟩
    rcases hlk : lookupMtime store f.rel with _ | old
    · rw [← hfe, incrementalEntry_eval_none hlk] at hcen
      exact ⟨Or.inl rfl, by simpa using hcen⟩
    · by_cases hle : f.mtime ≤ old
      · rw [← hfe, incrementalEntry_eval_le hlk hle] at hcen
        simp at hcen
      · rw [← hfe, incrementalEntry_eval_gt hlk (not_le.mp hle)] at hcen
        exact ⟨Or.inr ⟨old, rfl, not_le.mp hle⟩, by simpa using hcen⟩
  · exact List.length_map _ _

/-- Closed witness for C1 at a concrete two-file workspace where `a.py` is
already indexed and unchanged and `b.py` is new. -/
theorem claim_C1_witness :
    (buildIndexIncremental 120 defaultIncludeExt demoEmbed demoWs demoStore).filter
        (fun c => decide (c.path = demoFileA.rel)) =
      demoStore.filter (fun c => decide (c.path = demoFileA.rel)) ∧
    incrementalEmbedTexts 120 defaultIncludeExt demoStore demoWs =
      (incrementalDelta 120 defaultIncludeExt demoStore demoWs).map fun c => c.text := by
  have h := claim_C1 120 defaultIncludeExt demoEmbed demoWs demoStore (by decide)
  refine ⟨h.1 demoFileA (by decide) 1 (by decide) (by decide), h.2.2.1⟩

/-- C4: with no filesystem change between the runs, a second incremental
build persists a chunk list identical to the first, whatever vectors either
run's embedder returns. -/
theorem claim_C4 (L : ℕ) (exts : List String)
    (e₁ e₂ : List String → List (List ℚ)) (ws : List SrcFile) (store : List Chunk)
    (hnd : ((walkFiles exts ws).map fun f => f.rel).Nodup) :
    buildIndexIncremental L exts e₂ ws (buildIndexIncremental L exts e₁ ws store) =
      buildIndexIncremental L exts e₁ ws store := by
  have hinv := assignBlocks_inv L store (walkFiles exts ws)
    (e₁ (incrementalEmbedTexts L exts store ws))
  have hlen := hinv.length_eq
  have hdec : List.Forall₂
      (fun f b =>
        incrementalEntry L (buildIndexIncremental L exts e₁ ws store) f = (false, b) ∨
        (incrementalEntry L (buildIndexIncremental L exts e₁ ws store) f = (true, []) ∧
          b = []))
      (walkFiles exts ws)
      (assignBlocks ((walkFiles exts ws).map (incrementalEntry L store))
        (e₁ (incrementalEmbedTexts L exts store ws))) := by
    rw [List.forall₂_iff_get]
    refine ⟨hlen, ?_⟩
    intro i h₁ h₂
    obtain ⟨hi_inv, hfil, hlook⟩ := incremental_run_facts L exts e₁ ws store hnd i h₁ h₂
    rcases hlk : lookupMtime store ((walkFiles exts ws).get ⟨i, h₁⟩).rel with _ | old
    · exact fresh_decided (entryBlockInv_lookup_none hi_inv hlk) hfil hlook
    · obtain ⟨hc, hf⟩ := entryBlockInv_lookup_some hi_inv hlk
      by_cases hle : ((walkFiles exts ws).get ⟨i, h₁⟩).mtime ≤ old
      · exact Or.inl (carried_decided hlk hle (hc hle) hfil hlook)
      · exact fresh_decided (hf (not_le.mp hle)) hfil hlook
  calc buildIndexIncremental L exts e₂ ws (buildIndexIncremental L exts e₁ ws store)
      = (assignBlocks ((walkFiles exts ws).map
          (incrementalEntry L (buildIndexIncremental L exts e₁ ws store)))
          (e₂ (incrementalEmbedTexts L exts
            (buildIndexIncremental L exts e₁ ws store) ws))).flatten := rfl
    _ = (assignBlocks ((walkFiles exts ws).map (incrementalEntry L store))
          (e₁ (incrementalEmbedTexts L exts store ws))).flatten := by
        rw [assignBlocks_of_decided _ hdec]
    _ = buildIndexIncremental L exts e₁ ws store := rfl

/-- Closed witness for C4 at the concrete two-file workspace. -/
theorem claim_C4_witness :
    buildIndexIncremental 120 defaultIncludeExt demoEmbed demoWs
        (buildIndexIncremental 120 defaultIncludeExt demoEmbed demoWs demoStore) =
      buildIndexIncremental 120 defaultIncludeExt demoEmbed demoWs demoStore :=
  claim_C4 120 defaultIncludeExt demoEmbed demoEmbed demoWs demoStore (by decide)

/-! ### Staleness checking (claim C5) -/

theorem uniqueFilePairs_go_nodup :
    ∀ (cs : List Chunk) (acc : List (String × ℚ)),
      (acc.map Prod.fst).Nodup →
      ((cs.foldl
        (fun acc c =>
          if acc.any fun pt => decide (pt.1 = c.path) then acc
          else acc ++ [(c.path, c.modified_time)]) acc).map Prod.fst).Nodup := by
  intro cs
  induction cs with
  | nil => intro acc h; exact h
  | cons c cs ih =>
    intro acc h
    rw [List.foldl_cons]
    by_cases hany : acc.any fun pt => decide (pt.1 = c.path)
    · rw [if_pos hany]
      exact ih acc h
    · rw [if_neg hany]
      apply ih
      rw [List.map_append]
      rw [List.nodup_append]
      refine ⟨h, List.nodup_singleton _, ?_⟩
      intro x hx hx2
      simp only [List.map_cons, List.map_nil, List.mem_singleton] at hx2
      subst hx2
      obtain ⟨pt, hpt, hfst⟩ := List.mem_map.mp hx
      rw [List.any_eq_true] at hany
      push_neg at hany
      have := hany pt hpt
      exact this (decide_eq_true hfst)

/-- C5: when the sample cap covers every distinct indexed path, the checker
inspects exactly the distinct-path list and reports fresh if and only if no
inspected file is missing or newer; and whatever list of files it inspects
(the whole list or a random sample), one missing or strictly newer file
makes it report stale.  The distinct-path list has pairwise distinct
paths. -/
theorem claim_C5 (fsMtime : String → Option ℚ) (indexedChunks : List Chunk)
    (maxSamples : ℕ) (sample : List (String × ℚ)) :
    ((uniqueFilePairs indexedChunks).length ≤ maxSamples →
      (∀ pt ∈ uniqueFilePairs indexedChunks,
        ∃ m, fsMtime pt.1 = some m ∧ m ≤ pt.2) →
      isIndexStale fsMtime indexedChunks maxSamples sample = false) ∧
    (∀ pt ∈ (if (uniqueFilePairs indexedChunks).length ≤ maxSamples
        then uniqueFilePairs indexedChunks else sample),
      (fsMtime pt.1 = none ∨ ∃ m, fsMtime pt.1 = some m ∧ pt.2 < m) →
      isIndexStale fsMtime indexedChunks maxSamples sample = true) ∧
    ((uniqueFilePairs indexedChunks).map Prod.fst).Nodup := by
  refine ⟨?_, ?_, ?_⟩
  · intro hlen hgood
    unfold isIndexStale
    rw [if_pos hlen]
    unfold isStaleOn
    rw [List.any_eq_false]
    intro pt hpt
    obtain ⟨m, hm, hle⟩ := hgood pt hpt
    rw [hm]
    simp only [decide_eq_true_eq]
    exact not_lt.mpr hle
  · intro pt hpt hbad
    unfold isIndexStale isStaleOn
    rw [List.any_eq_true]
    refine ⟨pt, hpt, ?_⟩
    rcases hbad with hn | ⟨m, hm, hlt⟩
    · rw [hn]
    · rw [hm]
      simp only [decide_eq_true_eq]
      exact hlt
  · exact uniqueFilePairs_go_nodup indexedChunks [] (by simp)

/-- Closed witness for C5: the checker reports fresh on an exact
filesystem match and stale when the indexed file is gone. -/
theorem claim_C5_witness :
    isIndexStale demoFsMtime demoStore 50 [] = false ∧
    isIndexStale demoFsMissing demoStore 50 [] = true := by
  have h1 := claim_C5 demoFsMtime demoStore 50 []
  have h2 := claim_C5 demoFsMissing demoStore 50 []
  constructor
  · apply h1.1 (by decide)
    intro pt hpt
    have hu : uniqueFilePairs demoStore = [("a.py", 1)] := rfl
    rw [hu] at hpt
    rcases List.mem_singleton.mp hpt with rfl
    exact ⟨1, rfl, le_refl 1⟩
  · apply h2.2.1 ("a.py", 1)
    · have hu : uniqueFilePairs demoStore = [("a.py", 1)] := rfl
      rw [if_pos (by decide), hu]
      exact List.mem_singleton.mpr rfl
    · exact Or.inl rfl

/-! ### The two index paths (claim C6) -/

/-- C6: the claim fails in the code.  The startup path of
`ensure_rag_index_built` uses `get_rag_index_path`, which is
`<root>/.ask_rag_index.json`, while the query path `_run_rag` builds its
store at `<root>/.agent_engine/rag_index.json`; the two paths differ for
every workspace root (stated through decidable string equality). -/
theorem claim_C6 (root : String) :
    (get_rag_index_path root == runRagStorePath root) = false := by
  rw [beq_eq_false_iff_ne]
  intro h
  have hd := congrArg String.data h
  simp only [get_rag_index_path, runRagStorePath, pathJoin, String.data_append,
    List.append_assoc] at hd
  have h2 := List.append_cancel_left hd
  exact absurd h2 (by decide)

/-! ### Cosine similarity (claims C7 and C10) -/

theorem dotSum_comm (a b : List ℚ) : dotSum a b = dotSum b a := by
  unfold dotSum
  rw [List.zipWith_comm_of_comm]
  exact mul_comm

theorem dotSum_self (a : List ℚ) : dotSum a a = sumSquares a := by
  unfold dotSum sumSquares
  rw [List.zipWith_same]

theorem sumSquares_nonneg (a : List ℚ) : 0 ≤ sumSquares a := by
  unfold sumSquares
  apply List.sum_nonneg
  intro x hx
  obtain ⟨y, _, hy⟩ := List.mem_map.mp hx
  rw [← hy]
  exact mul_self_nonneg y

theorem sumSquares_pos {a : List ℚ} {x : ℚ} (hx : x ∈ a) (hx0 : x ≠ 0) :
    0 < sumSquares a := by
  have hmem : x * x ∈ a.map fun y => y * y := List.mem_map.mpr ⟨x, hx, rfl⟩
  have hle : x * x ≤ sumSquares a := by
    unfold sumSquares
    apply List.single_le_sum _ _ hmem
    intro y hy
    obtain ⟨z, _, hz⟩ := List.mem_map.mp hy
    rw [← hz]
    exact mul_self_nonneg z
  have hpos : 0 < x * x := mul_self_pos.mpr hx0
  linarith

theorem sumSquares_eq_zero_of_all_zero {a : List ℚ} (h : ∀ x ∈ a, x = 0) :
    sumSquares a = 0 := by
  unfold sumSquares
  apply List.sum_eq_zero
  intro x hx
  obtain ⟨y, hy, hxy⟩ := List.mem_map.mp hx
  rw [← hxy, h y hy, mul_zero]

/-- C7: over exact (real-number) arithmetic, `cosine_similarity` of a
nonzero vector with itself is `1.0`; it is `0.0` whenever either argument
is empty or all-zero (the guards prevent any division by zero); and it is
symmetric in its arguments. -/
theorem claim_C7 (a b : List ℚ) :
    (a ≠ [] → (∃ x ∈ a, x ≠ 0) → cosine_similarity a a = 1) ∧
    ((a = [] ∨ ∀ x ∈ a, x = 0) →
      cosine_similarity a b = 0 ∧ cosine_similarity b a = 0) ∧
    cosine_similarity a b = cosine_similarity b a := by
  refine ⟨?_, ?_, ?_⟩
  · intro hne ⟨x, hx, hx0⟩
    have hpos : 0 < sumSquares a := sumSquares_pos hx hx0
    have hposR : (0 : ℝ) < (sumSquares a : ℝ) := by exact_mod_cast hpos
    have hsq : Real.sqrt (sumSquares a : ℝ) ≠ 0 :=
      ne_of_gt (Real.sqrt_pos.mpr hposR)
    unfold cosine_similarity
    rw [if_neg (by simp [hne]), if_neg (by simp [hsq]), dotSum_self,
      Real.mul_self_sqrt (le_of_lt hposR)]
    exact div_self (ne_of_gt hposR)
  · intro hz
    rcases hz with hz | hz
    · subst hz
      constructor <;> (unfold cosine_similarity; rw [if_pos (by simp)])
    · by_cases hne : a = []
      · subst hne
        constructor <;> (unfold cosine_similarity; rw [if_pos (by simp)])
      · have hzero : sumSquares a = 0 := sumSquares_eq_zero_of_all_zero hz
        have hsq : Real.sqrt (sumSquares a : ℝ) = 0 := by
          rw [hzero]
          simp
        constructor
        · unfold cosine_similarity
          by_cases hg : a = [] ∨ b = [] ∨ a.length ≠ b.length
          · rw [if_pos hg]
          · rw [if_neg hg, if_pos (Or.inl hsq)]
        · unfold cosine_similarity
          by_cases hg : b = [] ∨ a = [] ∨ b.length ≠ a.length
          · rw [if_pos hg]
          · rw [if_neg hg, if_pos (Or.inr hsq)]
  · unfold cosine_similarity
    by_cases hg : a = [] ∨ b = [] ∨ a.length ≠ b.length
    · have hg2 : b = [] ∨ a = [] ∨ b.length ≠ a.length := by tauto
      rw [if_pos hg, if_pos hg2]
    · have hg2 : ¬(b = [] ∨ a = [] ∨ b.length ≠ a.length) := by tauto
      rw [if_neg hg, if_neg hg2]
      by_cases hs : Real.sqrt (sumSquares a : ℝ) = 0 ∨ Real.sqrt (sumSquares b : ℝ) = 0
      · have hs2 : Real.sqrt (sumSquares b : ℝ) = 0 ∨
            Real.sqrt (sumSquares a : ℝ) = 0 := Or.symm hs
        rw [if_pos hs, if_pos hs2]
      · have hs2 : ¬(Real.sqrt (sumSquares b : ℝ) = 0 ∨
            Real.sqrt (sumSquares a : ℝ) = 0) := fun h => hs (Or.symm h)
        rw [if_neg hs, if_neg hs2, dotSum_comm, mul_comm]

/-- Closed witness for C7 at the vectors `[1]` and `[0]`. -/
theorem claim_C7_witness :
    cosine_similarity [1] [1] = 1 ∧
    cosine_similarity [0] [1] = 0 ∧ cosine_similarity [1] [0] = 0 := by
  refine ⟨(claim_C7 [1] [1]).1 (by decide) ⟨1, by decide, by decide⟩, ?_⟩
  exact (claim_C7 [0] [1]).2.1 (Or.inr (by decide))

/-- C10: a length mismatch between the two vectors makes
`cosine_similarity` return `0.0` rather than raising or computing a partial
dot product; consequently any loaded chunk whose stored embedding is empty
or of a different dimension than the query vector is scored `0.0` during
`retrieve` and still takes part in the ranking. -/
theorem claim_C10 (a b qv : List ℚ) (chunks : List Chunk) :
    (a.length ≠ b.length → cosine_similarity a b = 0) ∧
    (∀ c ∈ chunks, (c.embedding = [] ∨ c.embedding.length ≠ qv.length) →
      chunkScore qv c = 0 ∧ c ∈ rankChunks qv chunks) := by
  constructor
  · intro hlen
    unfold cosine_similarity
    rw [if_pos (Or.inr (Or.inr hlen))]
  · intro c hc hemb
    constructor
    · unfold chunkScore cosine_similarity
      rcases hemb with hemb | hemb
      · rw [if_pos (Or.inr (Or.inl hemb))]
      · rw [if_pos (Or.inr (Or.inr (Ne.symm hemb)))]
    · unfold rankChunks sortByKeyDesc
      exact (List.perm_insertionSort _ chunks).mem_iff.mpr hc

/-- Closed witness for C10: the mismatched pair `[1]`, `[]` scores zero,
and a chunk with an empty embedding is scored zero yet stays ranked. -/
theorem claim_C10_witness :
    cosine_similarity [1] [] = 0 ∧
    chunkScore [1] demoChunkE1 = 0 ∧
    demoChunkE1 ∈ rankChunks [1] [demoChunkE1, demoChunkE2] := by
  have h := claim_C10 [1] [] [1] [demoChunkE1, demoChunkE2]
  have h2 := h.2 demoChunkE1 (by decide) (Or.inl (by decide))
  exact ⟨h.1 (by decide), h2.1, h2.2⟩

/-! ### Stability of the descending sort (claim C2) -/

theorem filter_key_orderedInsert (key : α → ℝ) (s : ℝ) (a : α) :
    ∀ l : List α,
      (List.orderedInsert (keyDescRel key) a l).filter
          (fun x => decide (key x = s)) =
        if key a = s then
          a :: l.filter (fun x => decide (key x = s))
        else l.filter (fun x => decide (key x = s))
  | [] => by
    simp only [List.orderedInsert, List.filter_cons, List.filter_nil]
    by_cases h : key a = s
    · rw [if_pos (decide_eq_true h), if_pos h]
    · rw [if_neg (by simpa using h), if_neg h]
  | b :: t => by
    simp only [List.orderedInsert]
    by_cases hr : keyDescRel key a b
    · rw [if_pos hr]
      simp only [List.filter_cons]
      by_cases ha : key a = s
      · rw [if_pos (decide_eq_true ha), if_pos ha]
      · rw [if_neg (by simpa using ha), if_neg ha]
    · rw [if_neg hr]
      have hab : key a < key b := by
        unfold keyDescRel at hr
        exact not_le.mp hr
      simp only [List.filter_cons]
      by_cases hb : key b = s
      · rw [if_pos (decide_eq_true hb)]
        rw [filter_key_orderedInsert key s a t]
        by_cases ha : key a = s
        · exact absurd (ha.trans hb.symm) (ne_of_lt hab)
        · rw [if_neg ha, if_neg ha, if_pos (decide_eq_true hb)]
      · rw [if_neg (by simpa using hb)]
        rw [filter_key_orderedInsert key s a t]
        by_cases ha : key a = s
        · rw [if_pos ha, if_pos ha, if_neg (by simpa using hb)]
        · rw [if_neg ha, if_neg ha, if_neg (by simpa using hb)]

theorem filter_key_insertionSort (key : α → ℝ) (s : ℝ) :
    ∀ l : List α,
      (List.insertionSort (keyDescRel key) l).filter (fun x => decide (key x = s)) =
        l.filter (fun x => decide (key x = s))
  | [] => rfl
  | a :: t => by
    simp only [List.insertionSort, List.filter_cons]
    rw [filter_key_orderedInsert, filter_key_insertionSort key s t]
    by_cases ha : key a = s
    · rw [if_pos ha, if_pos (decide_eq_true ha)]
    · rw [if_neg ha, if_neg (by simpa using ha)]

/-- C2: `retrieve` returns at most `top_k` chunks; an empty query-vector
list yields the empty result; given a query vector, the result is sorted by
descending cosine-similarity score, it is the whole sorted index when
`top_k` is at least the index size, and for every score value the
equal-score chunks of the result appear in their loaded relative order
(their filtered subsequence embeds into the loaded sequence filtered the
same way). -/
theorem claim_C2 (chunks : List Chunk) (queryVecs : List (List ℚ)) (top_k : ℕ) :
    (retrieve chunks queryVecs top_k).length ≤ top_k ∧
    (queryVecs = [] → retrieve chunks queryVecs top_k = []) ∧
    ∀ qv rest, queryVecs = qv :: rest →
      ((retrieve chunks queryVecs top_k).Sorted
          (fun c₁ c₂ => chunkScore qv c₂ ≤ chunkScore qv c₁) ∧
        (chunks.length ≤ top_k →
          retrieve chunks queryVecs top_k = rankChunks qv chunks) ∧
        ∀ s : ℝ, List.Sublist
          ((retrieve chunks queryVecs top_k).filter fun c =>
            decide (chunkScore qv c = s))
          (chunks.filter fun c => decide (chunkScore qv c = s))) := by
  refine ⟨?_, ?_, ?_⟩
  · cases queryVecs with
    | nil => simp [retrieve]
    | cons qv rest =>
      simp only [retrieve]
      exact List.length_take_le top_k _
  · intro h
    subst h
    rfl
  · intro qv rest h
    subst h
    refine ⟨?_, ?_, ?_⟩
    · simp only [retrieve]
      apply List.Pairwise.sublist (List.take_sublist top_k _)
      exact List.sorted_insertionSort (keyDescRel (chunkScore qv)) chunks
    · intro hk
      simp only [retrieve]
      apply List.take_of_length_le
      calc (rankChunks qv chunks).length
          = chunks.length := (List.perm_insertionSort _ chunks).length_eq
        _ ≤ top_k := hk
    · intro s
      have h1 : List.Sublist (retrieve chunks (qv :: rest) top_k)
          (rankChunks qv chunks) := by
        simp only [retrieve]
        exact List.take_sublist top_k _
      have h2 := h1.filter fun c => decide (chunkScore qv c = s)
      have h3 := filter_key_insertionSort (chunkScore qv) s chunks
      unfold rankChunks sortByKeyDesc at h2
      rw [h3] at h2
      exact h2

/-- Closed witness for C2 at two zero-scored chunks and the query vector
`[1]`. -/
theorem claim_C2_witness :
    (retrieve [demoChunkE1, demoChunkE2] [[1]] 5).length ≤ 5 ∧
    retrieve [demoChunkE1, demoChunkE2] [] 5 = [] ∧
    retrieve [demoChunkE1, demoChunkE2] [[1]] 5 =
      rankChunks [1] [demoChunkE1, demoChunkE2] ∧
    List.Sublist
      ((retrieve [demoChunkE1, demoChunkE2] [[1]] 5).filter fun c =>
        decide (chunkScore [1] c = 0))
      ([demoChunkE1, demoChunkE2].filter fun c => decide (chunkScore [1] c = 0)) := by
  have h := claim_C2 [demoChunkE1, demoChunkE2] [[1]] 5
  have h0 := claim_C2 [demoChunkE1, demoChunkE2] [] 5
  obtain ⟨hs, hfull, hstab⟩ := h.2.2 [1] [] rfl
  exact ⟨h.1, h0.2.1 rfl, hfull (by decide), hstab 0⟩

/-! ### Reconstruction of file content (claim C3) -/

theorem fileChunks_texts (L : ℕ) (rel : String) (mtime : ℚ) (lines : List String) :
    ((fileChunks L rel mtime lines).map fun c => c.text) =
      (windowTexts L lines).filter fun t => !isBlank t := by
  rw [fileChunks_eq_filter_map, List.map_map]
  unfold windowTexts
  rw [List.filter_map]
  rfl

theorem filter_path_map_text (l : List Chunk) (rel : String) :
    ((l.filter fun c => decide (c.path = rel)).map fun c => c.text) =
      (((l.map fun c => (c.path, c.text)).filter fun pr => decide (pr.1 = rel)).map
        Prod.snd) := by
  rw [List.filter_map, List.map_map]
  rfl

theorem fileBlocks_forall₂ (L : ℕ) (fs : List SrcFile) :
    List.Forall₂ (fun r b => ∀ c ∈ b, c.path = r) (fs.map fun f => f.rel)
      (fs.map fun f => fileChunks L f.rel f.mtime f.lines) := by
  induction fs with
  | nil => exact List.Forall₂.nil
  | cons f fs ih => exact List.Forall₂.cons (fileChunks_path L f.rel f.mtime f.lines) ih

theorem buildIndexChunks_filter_path (L : ℕ) (exts : List String) (ws : List SrcFile)
    (hnd : ((walkFiles exts ws).map fun f => f.rel).Nodup)
    (i : ℕ) (hi : i < (walkFiles exts ws).length) :
    (buildIndexChunks L exts ws).filter
        (fun c => decide (c.path = ((walkFiles exts ws).get ⟨i, hi⟩).rel)) =
      fileChunks L ((walkFiles exts ws).get ⟨i, hi⟩).rel
        ((walkFiles exts ws).get ⟨i, hi⟩).mtime
        ((walkFiles exts ws).get ⟨i, hi⟩).lines := by
  have hflat : buildIndexChunks L exts ws =
      ((walkFiles exts ws).map fun f => fileChunks L f.rel f.mtime f.lines).flatten := by
    simp [buildIndexChunks, List.flatMap_def]
  have hip : i < ((walkFiles exts ws).map fun f => f.rel).length := by simpa using hi
  have hib : i <
      ((walkFiles exts ws).map fun f => fileChunks L f.rel f.mtime f.lines).length := by
    simpa using hi
  have h := filter_flatten_of_nodup (fileBlocks_forall₂ L (walkFiles exts ws)) hnd
    i hip hib
  rw [List.get_map] at h
  rw [hflat, h, List.get_map]

/-- C3: for every file the full build visits, the texts of its persisted
chunks, in order, are exactly the non-blank windows of the file, and
joining all windows (blank ones included) reproduces the joined file
content; hence concatenating the chunk texts reconstructs the file content
except for the discarded blank windows. -/
theorem claim_C3 (L : ℕ) (exts : List String) (e : List String → List (List ℚ))
    (ws : List SrcFile) (hL : 0 < L)
    (hnd : ((walkFiles exts ws).map fun f => f.rel).Nodup) :
    ∀ f ∈ walkFiles exts ws,
      (((storeLoad (storeSave (buildIndex L exts e ws))).filter fun c =>
          decide (c.path = f.rel)).map fun c => c.text) =
        ((windowTexts L f.lines).filter fun t => !isBlank t) ∧
      pyJoin (windowTexts L f.lines) = pyJoin f.lines := by
  intro f hf
  refine ⟨?_, pyJoin_windowTexts hL f.lines⟩
  obtain ⟨⟨i, hi⟩, hget⟩ := List.mem_iff_get.mp hf
  have hload : storeLoad (storeSave (buildIndex L exts e ws)) =
      buildIndex L exts e ws := rfl
  rw [hload]
  have hmapg : ((buildIndex L exts e ws).map fun c => (c.path, c.text)) =
      ((buildIndexChunks L exts ws).map fun c => (c.path, c.text)) := by
    unfold buildIndex
    exact zipAssign_map_of_core (fun c => (c.path, c.text)) (fun c v => rfl) _ _
  rw [filter_path_map_text, hmapg, ← filter_path_map_text, ← hget,
    buildIndexChunks_filter_path L exts ws hnd i hi, hget, fileChunks_texts]

/-- Closed witness for C3 at the two-file demo workspace and its first
file. -/
theorem claim_C3_witness :
    (((storeLoad (storeSave (buildIndex 120 defaultIncludeExt demoEmbed demoWs))).filter
        fun c => decide (c.path = demoFileA.rel)).map fun c => c.text) =
      ((windowTexts 120 demoFileA.lines).filter fun t => !isBlank t) ∧
    pyJoin (windowTexts 120 demoFileA.lines) = pyJoin demoFileA.lines := by
  exact claim_C3 120 defaultIncludeExt demoEmbed demoWs (by decide) (by decide)
    demoFileA (by decide)

/-! ### Chunk invariants (claim C9) -/

theorem flatten_mem_forall₂ {R : SrcFile → List Chunk → Prop} {fs : List SrcFile}
    {blocks : List (List Chunk)} (h : List.Forall₂ R fs blocks) :
    ∀ c ∈ blocks.flatten, ∃ f ∈ fs, ∃ b, R f b ∧ c ∈ b := by
  induction h with
  | nil => intro c hc; cases hc
  | @cons f b fs blocks h1 h2 ih =>
    intro c hc
    rw [List.flatten_cons, List.mem_append] at hc
    rcases hc with hc | hc
    · exact ⟨f, List.mem_cons_self f fs, b, h1, hc⟩
    · obtain ⟨f2, hf2, b2, hb2, hc2⟩ := ih c hc
      exact ⟨f2, List.mem_cons_of_mem f hf2, b2, hb2, hc2⟩

/-- C9: every chunk a file is split into satisfies `start_line ≤ end_line`,
lies on a fixed-size window boundary (`j*L+1` to `min(j*L+L, n)`, windows
consecutive and non-overlapping by construction), has non-blank text equal
to the join of its window lines, and carries the id `path:start-end`; ids
are pairwise distinct among the chunks of one file; and each chunk persisted
by a full build, or by an incremental build when it is not carried over from
the prior store, agrees with such a freshly produced chunk in every field
except the embedding. -/
theorem claim_C9 (L : ℕ) (hL : 0 < L) :
    (∀ (rel : String) (mtime : ℚ) (lines : List String),
      ∀ c ∈ fileChunks L rel mtime lines,
        (c.start_line ≤ c.end_line ∧
          ∃ j, j * L < lines.length ∧ c.start_line = j * L + 1 ∧
            c.end_line = min (j * L + L) lines.length ∧
            c.text = pyJoin ((lines.drop (j * L)).take L) ∧
            isBlank c.text = false ∧
            c.id = chunkId rel c.start_line c.end_line)) ∧
    (∀ (rel : String) (mtime : ℚ) (lines : List String),
      ((fileChunks L rel mtime lines).map fun c => c.id).Nodup) ∧
    (∀ (exts : List String) (e : List String → List (List ℚ)) (ws : List SrcFile),
      ∀ c ∈ buildIndex L exts e ws, ∃ f ∈ walkFiles exts ws,
        ∃ c0 ∈ fileChunks L f.rel f.mtime f.lines, chunkCore c = chunkCore c0) ∧
    (∀ (exts : List String) (e : List String → List (List ℚ)) (ws : List SrcFile)
      (store : List Chunk),
      ∀ c ∈ buildIndexIncremental L exts e ws store,
        c ∈ store ∨ ∃ f ∈ walkFiles exts ws,
          ∃ c0 ∈ fileChunks L f.rel f.mtime f.lines, chunkCore c = chunkCore c0) := by
  refine ⟨?_, ?_, ?_, ?_⟩
  · intro rel mtime lines c hc
    rw [fileChunks_eq_filter_map] at hc
    obtain ⟨j, hj, hcj⟩ := List.mem_map.mp hc
    have hmemf := List.mem_filter.mp hj
    have hjl : j * L < lines.length := range_numWindows_mul_lt hL hmemf.1
    have hkept : (!isBlank (windowText L lines j)) = true := hmemf.2
    subst hcj
    refine ⟨windowChunk_start_le_end hL rel mtime lines hjl, j, hjl, rfl, rfl, rfl,
      by simpa using hkept, rfl⟩
  · intro rel mtime lines
    exact fileChunks_ids_nodup hL rel mtime lines
  · intro exts e ws c hc
    unfold buildIndex at hc
    obtain ⟨c1, hc1, hcore⟩ := zipAssign_mem_core hc
    obtain ⟨f, hf, hcf⟩ := List.mem_flatMap.mp hc1
    exact ⟨f, hf, c1, hcf, hcore⟩
  · intro exts e ws store c hc
    rw [buildIndexIncremental_eq_flatten] at hc
    obtain ⟨f, hf, b, hinv, hcb⟩ := flatten_mem_forall₂
      (assignBlocks_inv L store (walkFiles exts ws) _) c hc
    rcases hlk : lookupMtime store f.rel with _ | old
    · obtain ⟨c0, hc0, hcore⟩ :=
        (entryBlockInv_lookup_none hinv hlk).2 c hcb
      exact Or.inr ⟨f, hf, c0, hc0, hcore⟩
    · obtain ⟨hcar, hfresh⟩ := entryBlockInv_lookup_some hinv hlk
      by_cases hle : f.mtime ≤ old
      · left
        have hb := hcar hle
        rw [hb] at hcb
        exact List.mem_of_mem_filter hcb
      · obtain ⟨c0, hc0, hcore⟩ := (hfresh (not_le.mp hle)).2 c hcb
        exact Or.inr ⟨f, hf, c0, hc0, hcore⟩

/-- Closed witness for C9: the single chunk of a one-line file has distinct
id and ordered line bounds. -/
theorem claim_C9_witness :
    ((fileChunks 120 "a.py" 1 ["x = 1\n"]).map fun c => c.id).Nodup ∧
    (windowChunk 120 "a.py" 1 ["x = 1\n"] 0).start_line ≤
      (windowChunk 120 "a.py" 1 ["x = 1\n"] 0).end_line := by
  have h := claim_C9 120 (by decide)
  refine ⟨h.2.1 "a.py" 1 ["x = 1\n"], ?_⟩
  exact (h.1 "a.py" 1 ["x = 1\n"] (windowChunk 120 "a.py" 1 ["x = 1\n"] 0)
    (by decide)).1

/-! ### The evidence bundle (claim C8) -/

theorem runRag_nonexistent (query msg : String)
    (embed : List String → Except String (List (List ℚ)))
    (fmt : ℝ → String) (h0 : embed [] = Except.ok [])
    (h1 : embed [query] = Except.error msg) (hq : query ≠ "") :
    runRag query 120 defaultIncludeExt embed [] none fmt 6 =
      ("", "RAG retrieval failed: " ++ msg) := by
  unfold runRag
  rw [if_neg hq]
  have hm : maybeLoadIndexE 120 defaultIncludeExt embed [] none = Except.ok [] := by
    unfold maybeLoadIndexE
    show (if storeLoad none = ([] : List Chunk) then
        buildIndexE 120 defaultIncludeExt embed []
      else Except.ok (storeLoad none)) = Except.ok []
    rw [if_pos (show storeLoad none = ([] : List Chunk) from rfl)]
    unfold buildIndexE
    show (match embed ((buildIndexChunks 120 defaultIncludeExt []).map
        fun c => c.text) with
      | Except.error err => Except.error err
      | Except.ok vs =>
        Except.ok (zipAssign (buildIndexChunks 120 defaultIncludeExt []) vs)) =
      Except.ok []
    have harg : ((buildIndexChunks 120 defaultIncludeExt ([] : List SrcFile)).map
        fun c => c.text) = ([] : List String) := rfl
    rw [harg, h0]
    rfl
  rw [hm, h1]

theorem ragFailText_ne_empty (msg : String) :
    ("RAG retrieval failed: " ++ msg) ≠ "" := by
  intro h
  have hd := congrArg String.data h
  rw [String.data_append] at hd
  have h2 := List.append_eq_nil.mp hd
  exact absurd h2.1 (by decide)

theorem rawSearchSnippets_nonexistent
    (embed : List String → Except String (List (List ℚ))) (fmt : ℝ → String)
    (query : String) (hq : query ≠ "") (root : String)
    (fa2 : Option (List String)) :
    rawSearchSnippets (nonexistentRootEnv embed fmt) query root fa2 = "" := by
  unfold rawSearchSnippets
  rw [if_neg hq]
  rw [if_pos (show (nonexistentRootEnv embed fmt).rgAvailable = true from rfl)]
  have h1 : ∀ ds : List String,
      ds.filterMap (rgAreaPiece (nonexistentRootEnv embed fmt) root) = [] := by
    intro ds
    induction ds with
    | nil => rfl
    | cons d t ih =>
      rw [List.filterMap_cons,
        show rgAreaPiece (nonexistentRootEnv embed fmt) root d = none from rfl, ih]
  rw [h1]
  rfl

set_option maxHeartbeats 2000000 in
set_option maxRecDepth 4096 in
/-- C8: the evidence bundle always keeps its section structure: for every
environment (each outcome of the file listing, README read, configuration
load, RAG path and keyword search, failures included) the result of
`search_codebase_tool` with no question-type hint is the ordered
seven-section document; and for a nonexistent workspace root (empty
listing, no README, empty walk, failing query embedding) the returned
bundle is exactly the placeholder-bodied document, with the embedding
failure surfaced as a readable `RAG retrieval failed` status line rather
than an exception. -/
theorem claim_C8 :
    (∀ (env : ToolEnv) (q : String) (fa : Option (List String)) (root : String),
      ∃ b₁ b₂ b₃ b₄ b₅ b₆,
        searchCodebaseTool env q fa root none =
          "## Query\n" ++ q ++ "\n\n" ++ ("## Search Snippets\n" ++ b₁) ++
            "\n\n" ++ ("## RAG Snippets\n" ++ b₂) ++ "\n\n" ++
            ("## RAG Status\n" ++ b₃) ++ "\n\n" ++
            ("## Direct File Snippets\n" ++ b₄) ++ "\n\n" ++
            ("## README\n" ++ b₅) ++ "\n\n" ++
            ("## Project File Listing (partial)\n" ++ b₆)) ∧
    (∀ (query msg : String) (embed : List String → Except String (List (List ℚ)))
      (fmt : ℝ → String),
      embed [] = Except.ok [] → embed [query] = Except.error msg → query ≠ "" →
      searchCodebaseTool (nonexistentRootEnv embed fmt) query none
          "/nonexistent/path" none =
        "## Query\n" ++ query ++
          "\n\n## Search Snippets\nNo direct matches found for the query." ++
          "\n\n## RAG Snippets\nRAG disabled or no matches found." ++
          "\n\n## RAG Status\nRAG retrieval failed: " ++ msg ++
          "\n\n## Direct File Snippets\nNo direct file references found in the query." ++
          "\n\n## README\nNo README file found." ++
          "\n\n## Project File Listing (partial)\nNo files were listed.") := by
  constructor
  · intro env q fa root
    exact ⟨_, _, _, _, _, _, rfl⟩
  · intro query msg embed fmt h0 h1 hq
    have hrag : runRag query 120 defaultIncludeExt embed [] none fmt
        ((true, 6) : Bool × ℕ).2 = ("", "RAG retrieval failed: " ++ msg) :=
      runRag_nonexistent query msg embed fmt h0 h1 hq
    unfold searchCodebaseTool
    simp only []
    rw [show loadRagSettings (nonexistentRootEnv embed fmt).ragCfg =
      ((true, 6) : Bool × ℕ) from rfl]
    rw [show (nonexistentRootEnv embed fmt).embed = embed from rfl,
      show (nonexistentRootEnv embed fmt).ws = ([] : List SrcFile) from rfl,
      show (nonexistentRootEnv embed fmt).storeState = (none : StoreState) from rfl,
      show (nonexistentRootEnv embed fmt).formatScore = fmt from rfl]
    rw [hrag]
    rw [if_pos (show (((true, 6) : Bool × ℕ).1 = true) from rfl)]
    rw [rawSearchSnippets_nonexistent embed fmt query hq "/nonexistent/path"]
    simp only []
    rw [if_neg (ragFailText_ne_empty msg)]
    apply string_data_inj
    simp [String.intercalate, String.intercalate.go, String.data_append,
      nonexistentRootEnv, List.append_assoc]

/-- Closed witness for C8 at the query `test` against a nonexistent root
with a failing embedding service. -/
theorem claim_C8_witness :
    searchCodebaseTool (nonexistentRootEnv demoFailEmbed demoFmt) "test" none
        "/nonexistent/path" none =
      "## Query\n" ++ "test" ++
        "\n\n## Search Snippets\nNo direct matches found for the query." ++
        "\n\n## RAG Snippets\nRAG disabled or no matches found." ++
        "\n\n## RAG Status\nRAG retrieval failed: " ++ "connection refused" ++
        "\n\n## Direct File Snippets\nNo direct file references found in the query." ++
        "\n\n## README\nNo README file found." ++
        "\n\n## Project File Listing (partial)\nNo files were listed." :=
  claim_C8.2 "test" "connection refused" demoFailEmbed demoFmt rfl rfl (by decide)
